import Mathlib

/-!
Verification development for the tour-CMS admin dashboard.

The source is a single React file.  The logic verified here is the pure core
of the AI-assisted structured-data editor and its helpers:

* `callOpenRouter` — the chat-completion wrapper (fence-stripping
  normalization, JSON parsing, error collapsing in a catch-all);
* `slugify` — the slug generator;
* the `AIAssistedEditor` state machine (preview/raw modes, keystroke
  validation, blur-time commit, AI generation);
* `renderNode` — the human-readable tree renderer;
* `handleSave` of the `TourEditor` — required-field validation before save.

JavaScript values edited by the component are modelled by the inductive type
`JValue` (JSON documents).  JSON numbers are modelled as integers: the
claims under verification do not depend on fractional or exponent forms, and
`JSON.stringify`/`JSON.parse` round-tripping is exact on integral doubles in
the modelled range.  Strings are lists of Unicode scalar characters; the
UTF-16 surrogate-pair details of JavaScript strings are outside the model.
`JSON.stringify(·, null, 2)` and `JSON.parse` are modelled by `stringify`
and `jparse` below, including escape sequences, pretty-printing layout and
inter-token whitespace.  Two distinct whitespace sets appear: `JSON.parse`
accepts only the JSON set (space, tab, newline, carriage return; `isWsC`),
while `String.prototype.trim` strips the larger ECMAScript set including
VT, FF, NBSP and the Unicode space separators (`isJsWsC`); the difference
is observable through the normalization chain and both are modelled.
-/

/-- Backtick character (written numerically throughout). -/
def tickC : Char := Char.ofNat 96

/-- Left curly brace character. -/
def lcurl : Char := Char.ofNat 123

/-- Right curly brace character. -/
def rcurl : Char := Char.ofNat 125

/-- JSON whitespace (also the common core of the JavaScript `trim` set). -/
def isWsC (c : Char) : Bool := c = ' ' || c = '\t' || c = '\n' || c = '\r'

/-- Skip leading JSON whitespace. -/
def skipWs (s : List Char) : List Char := s.dropWhile isWsC

/-- ASCII decimal digit test. -/
def isDigitC (c : Char) : Bool := 48 ≤ c.toNat && c.toNat ≤ 57

/-- Numeric value of a decimal digit character. -/
def digitVal (c : Char) : Nat := c.toNat - 48

/-- Decimal digit character for a value below ten. -/
def digitChar : Nat → Char
  | 0 => '0' | 1 => '1' | 2 => '2' | 3 => '3' | 4 => '4'
  | 5 => '5' | 6 => '6' | 7 => '7' | 8 => '8' | _ => '9'

/-- Accumulator loop producing the decimal digits of a natural number.
The fuel argument only bounds recursion depth; `natChars` supplies enough. -/
def natCharsAux : Nat → Nat → List Char → List Char
  | 0, _, acc => acc
  | f + 1, n, acc =>
    if n < 10 then digitChar n :: acc
    else natCharsAux f (n / 10) (digitChar (n % 10) :: acc)

/-- Decimal representation of a natural number. -/
def natChars (n : Nat) : List Char := natCharsAux (n + 1) n []

/-- Decimal representation of an integer, as produced by `String(n)` /
`JSON.stringify(n)` for integral numbers. -/
def intChars : Int → List Char
  | .ofNat n => natChars n
  | .negSucc m => '-' :: natChars (m + 1)

/-- JSON documents: the recursively-typed value edited by one form field
(spec §3).  Object fields keep insertion order, as JavaScript objects do. -/
inductive JValue where
  | null : JValue
  | bool : Bool → JValue
  | num : Int → JValue
  | str : List Char → JValue
  | arr : List JValue → JValue
  | obj : List (List Char × JValue) → JValue

/-- Lowercase hexadecimal digit character, as emitted by `JSON.stringify`
in `\u00XX` escapes. -/
def hexDigitChar : Nat → Char
  | 0 => '0' | 1 => '1' | 2 => '2' | 3 => '3' | 4 => '4' | 5 => '5'
  | 6 => '6' | 7 => '7' | 8 => '8' | 9 => '9' | 10 => 'a' | 11 => 'b'
  | 12 => 'c' | 13 => 'd' | 14 => 'e' | _ => 'f'

/-- Value of a hexadecimal digit character (either case), if any. -/
def hexVal (c : Char) : Option Nat :=
  if 48 ≤ c.toNat && c.toNat ≤ 57 then some (c.toNat - 48)
  else if 97 ≤ c.toNat && c.toNat ≤ 102 then some (c.toNat - 87)
  else if 65 ≤ c.toNat && c.toNat ≤ 70 then some (c.toNat - 55)
  else none

/-- String-character escaping as performed by `JSON.stringify`: named
escapes for quote, backslash and the common control characters, `\u00XX`
for the remaining control characters, everything else verbatim. -/
def escapeChar (c : Char) : List Char :=
  if c = '"' then ['\\', '"']
  else if c = '\\' then ['\\', '\\']
  else if c = '\n' then ['\\', 'n']
  else if c = '\r' then ['\\', 'r']
  else if c = '\t' then ['\\', 't']
  else if c.toNat = 8 then ['\\', 'b']
  else if c.toNat = 12 then ['\\', 'f']
  else if c.toNat < 32 then
    ['\\', 'u', '0', '0', hexDigitChar (c.toNat / 16), hexDigitChar (c.toNat % 16)]
  else [c]

/-- Escape a whole string body. -/
def escapeStr (s : List Char) : List Char := (s.map escapeChar).flatten

/-- Spaces used for pretty-printing indentation. -/
def spacesN (n : Nat) : List Char := List.replicate n ' '

mutual

/-- `JSON.stringify(v, null, 2)` at the given current indentation:
containers open on their own line, children are indented two further
spaces, and the closing bracket returns to the parent indentation. -/
def printVal (ind : Nat) : JValue → List Char
  | .null => "null".toList
  | .bool true => "true".toList
  | .bool false => "false".toList
  | .num i => intChars i
  | .str s => '"' :: escapeStr s ++ ['"']
  | .arr [] => ['[', ']']
  | .arr (x :: xs) =>
    '[' :: '\n' :: spacesN (ind + 2) ++ printItems (ind + 2) (x :: xs)
      ++ '\n' :: spacesN ind ++ [']']
  | .obj [] => [lcurl, rcurl]
  | .obj (f :: fs) =>
    lcurl :: '\n' :: spacesN (ind + 2) ++ printFields (ind + 2) (f :: fs)
      ++ '\n' :: spacesN ind ++ [rcurl]

/-- Array elements, separated by a comma, newline and indentation. -/
def printItems (ind : Nat) : List JValue → List Char
  | [] => []
  | [x] => printVal ind x
  | x :: xs =>
    printVal ind x ++ ',' :: '\n' :: spacesN ind ++ printItems ind xs

/-- Object fields, each `"key": value`, separated like array elements. -/
def printFields (ind : Nat) : List (List Char × JValue) → List Char
  | [] => []
  | [(k, v)] => '"' :: escapeStr k ++ '"' :: ':' :: ' ' :: printVal ind v
  | (k, v) :: fs =>
    '"' :: escapeStr k ++ '"' :: ':' :: ' ' :: printVal ind v
      ++ ',' :: '\n' :: spacesN ind ++ printFields ind fs

end

/-- `JSON.stringify(v, null, 2)`: the serialization used when entering raw
mode and when copying the document. -/
def stringify (v : JValue) : List Char := printVal 0 v

/-- Digit-run consumer used by the number production of the parser. -/
def parseDigitsAcc : Nat → List Char → Nat × List Char
  | acc, [] => (acc, [])
  | acc, c :: cs =>
    if isDigitC c then parseDigitsAcc (10 * acc + digitVal c) cs else (acc, c :: cs)

/-- Decode one escape character of a JSON string body. -/
def escDecode (c : Char) : Option Char :=
  if c = '"' then some '"'
  else if c = '\\' then some '\\'
  else if c = '/' then some '/'
  else if c = 'n' then some '\n'
  else if c = 't' then some '\t'
  else if c = 'r' then some '\r'
  else if c = 'b' then some (Char.ofNat 8)
  else if c = 'f' then some (Char.ofNat 12)
  else none

/-- Parse a JSON string body (the part after the opening quote) up to and
including the closing quote, returning the decoded characters and the rest
of the input.  Unescaped control characters are rejected, as in JSON.
`\uXXXX` escapes in the UTF-16 surrogate range are out of the model. -/
def parseStrBody : List Char → Option (List Char × List Char)
  | [] => none
  | c :: cs =>
    if c = '"' then some ([], cs)
    else if c = '\\' then
      match cs with
      | [] => none
      | e :: cs2 =>
        if e = 'u' then
          match cs2 with
          | h1 :: h2 :: h3 :: h4 :: cs3 =>
            match hexVal h1, hexVal h2, hexVal h3, hexVal h4 with
            | some a, some b, some c3, some d =>
              let n := ((a * 16 + b) * 16 + c3) * 16 + d
              if n < 55296 then
                match parseStrBody cs3 with
                | some (t, r) => some (Char.ofNat n :: t, r)
                | none => none
              else none
            | _, _, _, _ => none
          | _ => none
        else
          match escDecode e with
          | some d =>
            match parseStrBody cs2 with
            | some (t, r) => some (d :: t, r)
            | none => none
          | none => none
    else if c.toNat < 32 then none
    else
      match parseStrBody cs with
      | some (t, r) => some (c :: t, r)
      | none => none

mutual

/-- One JSON value, after optional leading whitespace.  The fuel argument
only bounds recursion depth; `jparse` supplies enough for any input of the
given length.  Mirrors the grammar accepted by `JSON.parse`, restricted to
integer numerals (see the module comment). -/
def parseVal : Nat → List Char → Option (JValue × List Char)
  | 0, _ => none
  | f + 1, s =>
    match skipWs s with
    | [] => none
    | c :: cs =>
      if c = 'n' then
        match cs with
        | 'u' :: 'l' :: 'l' :: cs2 => some (.null, cs2)
        | _ => none
      else if c = 't' then
        match cs with
        | 'r' :: 'u' :: 'e' :: cs2 => some (.bool true, cs2)
        | _ => none
      else if c = 'f' then
        match cs with
        | 'a' :: 'l' :: 's' :: 'e' :: cs2 => some (.bool false, cs2)
        | _ => none
      else if c = '"' then
        match parseStrBody cs with
        | some (t, r) => some (.str t, r)
        | none => none
      else if c = '-' then
        match cs with
        | d :: cs2 =>
          if isDigitC d then
            if d = '0' then some (.num 0, cs2)
            else
              match parseDigitsAcc 0 (d :: cs2) with
              | (m, r) => some (.num (-(m : Int)), r)
          else none
        | [] => none
      else if isDigitC c then
        if c = '0' then some (.num 0, cs)
        else
          match parseDigitsAcc 0 (c :: cs) with
          | (m, r) => some (.num (m : Int), r)
      else if c = '[' then
        match skipWs cs with
        | [] => none
        | c2 :: cs2 =>
          if c2 = ']' then some (.arr [], cs2)
          else
            match parseItems f (c2 :: cs2) with
            | some (vs, r) => some (.arr vs, r)
            | none => none
      else if c = lcurl then
        match skipWs cs with
        | c2 :: cs2 =>
          if c2 = rcurl then some (.obj [], cs2)
          else
            match parseFields f (c2 :: cs2) with
            | some (fs, r) => some (.obj fs, r)
            | none => none
        | [] => none
      else none

/-- One or more array elements followed by the closing bracket. -/
def parseItems : Nat → List Char → Option (List JValue × List Char)
  | 0, _ => none
  | f + 1, s =>
    match parseVal f s with
    | none => none
    | some (v, r) =>
      match skipWs r with
      | [] => none
      | c2 :: r2 =>
        if c2 = ',' then
          match parseItems f r2 with
          | none => none
          | some (vs, r3) => some (v :: vs, r3)
        else if c2 = ']' then some ([v], r2)
        else none

/-- One or more object fields followed by the closing brace. -/
def parseFields : Nat → List Char → Option (List (List Char × JValue) × List Char)
  | 0, _ => none
  | f + 1, s =>
    match skipWs s with
    | [] => none
    | kc :: kcs =>
      if kc = '"' then
        match parseStrBody kcs with
        | some (k, r) =>
          match skipWs r with
          | [] => none
          | c3 :: r2 =>
            if c3 = ':' then
              match parseVal f r2 with
              | some (v, r3) =>
                match skipWs r3 with
                | c4 :: r4 =>
                  if c4 = ',' then
                    match parseFields f r4 with
                    | some (fs, r5) => some ((k, v) :: fs, r5)
                    | none => none
                  else if c4 = rcurl then some ([(k, v)], r4)
                  else none
                | [] => none
              | none => none
            else none
        | none => none
      else none

end

/-- Remove a trailing run of characters satisfying `p`. -/
def dropTail (p : Char → Bool) : List Char → List Char
  | [] => []
  | c :: cs =>
    match dropTail p cs with
    | [] => if p c then [] else [c]
    | t => c :: t

/-- Trim of the JSON whitespace set (space, tab, newline, carriage
return).  This is the pre-trim applied inside the `jparse` model; it is
sound there because `JSON.parse` itself ignores surrounding JSON
whitespace.  It is NOT the model of `String.prototype.trim`, whose larger
whitespace set is `isJsWsC`/`jsTrim` below. -/
def trimC (s : List Char) : List Char := dropTail isWsC (s.dropWhile isWsC)

/-- The whitespace set stripped by `String.prototype.trim` (ECMAScript
WhiteSpace ∪ LineTerminator): TAB, LF, VT, FF, CR, space, NBSP, the
Unicode space separators, LS, PS and ZWNBSP. -/
def isJsWsC (c : Char) : Bool :=
  (9 ≤ c.toNat && c.toNat ≤ 13) || c.toNat = 32 || c.toNat = 160 || c.toNat = 5760
    || (8192 ≤ c.toNat && c.toNat ≤ 8202) || c.toNat = 8232 || c.toNat = 8233
    || c.toNat = 8239 || c.toNat = 8287 || c.toNat = 12288 || c.toNat = 65279

/-- `String.prototype.trim`: remove leading and trailing JavaScript
whitespace. -/
def jsTrim (s : List Char) : List Char := dropTail isJsWsC (s.dropWhile isJsWsC)

/-- `JSON.parse`: trim the ends, parse one value, require only whitespace
after it.  `JSON.parse` itself allows whitespace around the single value,
so pre-trimming is sound; the fuel `length + 1` is enough because every
level of the grammar consumes input. -/
def jparse (s : List Char) : Option JValue :=
  let u := trimC s
  match parseVal (u.length + 1) u with
  | some (v, r) => if skipWs r = [] then some v else none
  | none => none

mutual

/-- Recursion-depth measure for the parser: the least fuel with which
`parseVal` can traverse a printed value.  Used to show the fuel supplied
by `jparse` is always sufficient. -/
def fuelFor : JValue → Nat
  | .arr [] => 1
  | .arr (x :: xs) => itemsFuel (x :: xs) + 1
  | .obj [] => 1
  | .obj (f :: fs) => fieldsFuel (f :: fs) + 1
  | _ => 1

/-- Fuel measure for `parseItems` over a list of array elements. -/
def itemsFuel : List JValue → Nat
  | [] => 1
  | x :: xs => max (fuelFor x) (itemsFuel xs) + 1

/-- Fuel measure for `parseFields` over a list of object fields. -/
def fieldsFuel : List (List Char × JValue) → Nat
  | [] => 1
  | (_, v) :: fs => max (fuelFor v) (fieldsFuel fs) + 1

end

/-- ASCII letter test (`[a-z]` under the case-insensitive regex flag). -/
def isAsciiLetter (c : Char) : Bool :=
  (65 ≤ c.toNat && c.toNat ≤ 90) || (97 ≤ c.toNat && c.toNat ≤ 122)

/-- ASCII lowercasing of a single character: the fragment of
`String.prototype.toLowerCase` relevant to the matched tag letters. -/
def lowAlpha (c : Char) : Char :=
  if 65 ≤ c.toNat && c.toNat ≤ 90 then Char.ofNat (c.toNat + 32) else c

/-- Case-insensitive match of the four letters of the `json` tag. -/
def isJsonTag (c1 c2 c3 c4 : Char) : Bool :=
  lowAlpha c1 = 'j' && lowAlpha c2 = 's' && lowAlpha c3 = 'o' && lowAlpha c4 = 'n'

/-- Global replacement of the literal (case-insensitive) pattern made of
three backticks followed by `json` with the empty string: the first
`replace` of the normalization chain in `callOpenRouter`. -/
def repl1 : List Char → List Char
  | c :: c2 :: c3 :: c4 :: c5 :: c6 :: c7 :: cs2 =>
    if c = tickC && c2 = tickC && c3 = tickC && isJsonTag c4 c5 c6 c7 then repl1 cs2
    else c :: repl1 (c2 :: c3 :: c4 :: c5 :: c6 :: c7 :: cs2)
  | s => s

/-- Completion of a candidate match of the second `replace` regex after
its three backticks: skip a possibly empty run of (case-insensitive)
letters, then require a newline; returns the input remaining after the
newline, or `none` when no match completes here.  The letter run is
greedy, which is exact because `[a-z]` cannot match the newline, so the
regex never succeeds by backtracking. -/
def fenceTail : List Char → Option (List Char)
  | [] => none
  | c :: cs =>
    if c = '\n' then some cs
    else if isAsciiLetter c then fenceTail cs
    else none

/-- Match of the second `replace` regex (three backticks, a possibly empty
letter run, a newline) anchored at the head of the input. -/
def fenceMatch : List Char → Option (List Char)
  | c :: c2 :: c3 :: cs =>
    if c = tickC && c2 = tickC && c3 = tickC then fenceTail cs else none
  | _ => none

/-- Global replacement of the second regex by the empty string, with the
scan discipline of `String.prototype.replace` with the `g` flag: the
pattern is attempted at every position; a match is removed and scanning
resumes immediately after it, otherwise the character is kept and the scan
advances one position (so a match may begin inside a backtick run that an
earlier failed attempt already looked at).  The fuel argument only bounds
recursion depth; `repl2` supplies enough. -/
def repl2Go : Nat → List Char → List Char
  | 0, s => s
  | _ + 1, [] => []
  | f + 1, c :: cs =>
    match fenceMatch (c :: cs) with
    | some rest => repl2Go f rest
    | none => c :: repl2Go f cs

/-- The second `replace` of the normalization chain:
`content.replace(/```[a-z]*\n/gi, '')`. -/
def repl2 (s : List Char) : List Char := repl2Go s.length s

/-- Global removal of every remaining triple backtick: the third
`replace` of the normalization chain. -/
def repl3 : List Char → List Char
  | c :: c2 :: c3 :: cs2 =>
    if c = tickC && c2 = tickC && c3 = tickC then repl3 cs2
    else c :: repl3 (c2 :: c3 :: cs2)
  | s => s

/-- The response normalization performed inside `callOpenRouter`:
`content.replace(/\x60\x60\x60json/gi, '').replace(/\x60\x60\x60[a-z]*\n/gi, '')
.replace(/\x60\x60\x60/g, '').trim()` — strip the `json`-tagged fence opener
pattern, then any fence opener with a letter tag and newline, then all
remaining triple backticks, then trim with the JavaScript trim set. -/
def normalizeContent (s : List Char) : List Char :=
  jsTrim (repl3 (repl2 (repl1 s)))

/-- The chat-completion HTTP response, reduced to the parts `callOpenRouter`
inspects: `response.ok`, `response.statusText`, and the already extracted
`data.choices[0].message.content` (the body decode is outside the model). -/
structure ChatResponse where
  ok : Bool
  statusText : List Char
  content : List Char

/-- The message of the error rethrown by the catch-all in `callOpenRouter`. -/
def aiFailMsg : List Char :=
  "AI returned invalid JSON format or failed to generate.".toList

/-- The message of the error thrown inside the try block on a non-2xx
response. -/
def apiErrorMsg (st : List Char) : List Char := "API Error: ".toList ++ st

/-- Stand-in for the engine-specific `JSON.parse` SyntaxError message; its
exact text is irrelevant because the catch-all discards it. -/
def parseFailTag : List Char := "SyntaxError".toList

/-- The body of the try block of `callOpenRouter`: throw on a non-2xx
status, otherwise normalize and parse the content. -/
def callOpenRouterTry (resp : ChatResponse) : Except (List Char) JValue :=
  if resp.ok then
    match jparse (normalizeContent resp.content) with
    | some v => Except.ok v
    | none => Except.error parseFailTag
  else Except.error (apiErrorMsg resp.statusText)

/-- `callOpenRouter`: the catch block replaces every failure of the try
body (including the status-text error it itself threw) with one fixed
generic error before rethrowing to the caller. -/
def callOpenRouter (resp : ChatResponse) : Except (List Char) JValue :=
  match callOpenRouterTry resp with
  | Except.ok v => Except.ok v
  | Except.error _ => Except.error aiFailMsg

/-- JavaScript truthiness of a document value (`value || {}` tests). -/
def jsTruthy : JValue → Bool
  | .null => false
  | .bool b => b
  | .num n => n != 0
  | .str s => !s.isEmpty
  | .arr _ => true
  | .obj _ => true

/-- The `value || \x7b\x7d` fallback used by the editor. -/
def orEmptyObj (v : JValue) : JValue := if jsTruthy v then v else .obj []

/-- The two presentation modes of the `AIAssistedEditor`. -/
inductive EditorMode where
  | preview : EditorMode
  | raw : EditorMode
deriving DecidableEq

/-- Toast flavours of the notification system. -/
inductive ToastKind where
  | info : ToastKind
  | success : ToastKind
  | error : ToastKind
deriving DecidableEq

/-- One transient notification. -/
structure Toast where
  msg : List Char
  kind : ToastKind

/-- The state of one `AIAssistedEditor` instance.  `value` is the Document
(the `value` prop, fed back through `onChange` by the parent form);
`errShown` models whether the inline error element is displayed (the source
stores the parse-error message string; only its presence matters here). -/
structure EditorState where
  value : JValue
  mode : EditorMode
  rawText : List Char
  errShown : Bool
  promptText : List Char

/-- Mode switch, including the `useEffect` on `[mode, value]`: entering raw
mode re-serializes `value || \x7b\x7d` into the raw buffer and clears the
inline error; entering preview changes only the mode. -/
def setMode (st : EditorState) (m : EditorMode) : EditorState :=
  if m = .raw then
    { st with mode := m, rawText := stringify (orEmptyObj st.value), errShown := false }
  else { st with mode := m }

/-- The raw-textarea change handler: store the keystroke text, attempt a
parse purely to set or clear the inline error, and never call `onChange`.
The second component lists the `onChange` calls made (none). -/
def handleRawChange (st : EditorState) (text : List Char) : EditorState × List JValue :=
  ({ st with rawText := text, errShown := (jparse text).isNone }, [])

/-- `handleRawBlur`: parse the raw buffer; on success commit the parsed
value through `onChange` and clear the error (the `[mode, value]` effect
then re-serializes the committed value into the buffer); on failure show
the parser error and leave the document untouched. -/
def handleRawBlur (st : EditorState) : EditorState × List JValue :=
  match jparse st.rawText with
  | some v =>
    ({ st with value := v, errShown := false, rawText := stringify (orEmptyObj v) }, [v])
  | none => ({ st with errShown := true }, [])

/-- Success toast text of `handleAIGenerate`. -/
def updateOkMsg : List Char := "Update successful".toList

/-- Observable effects of one generation attempt. -/
structure GenEffects where
  onChangeCalls : List JValue
  toasts : List Toast

/-- `handleAIGenerate`: no-op on a blank prompt; on a successful call
replace the document wholesale through `onChange`, clear the prompt, emit
one success toast, and (in raw mode) re-serialize the buffer; on a failed
call leave everything unchanged and emit one error toast with the message
of the caught error.  The blank-prompt guard is stated with the JSON-set
trim `trimC`; the two trim sets agree on whether a prompt is blank except
for prompts made only of JavaScript-only whitespace (VT, FF, NBSP, ...),
and the failure-isolation claim hypothesis `jsTrim promptText ≠ []` (the
condition under which the real guard lets generation proceed) implies
`trimC promptText ≠ []`, so no claim below depends on the difference. -/
def handleAIGenerate (st : EditorState) (resp : ChatResponse) : EditorState × GenEffects :=
  if trimC st.promptText = [] then (st, ⟨[], []⟩)
  else
    match callOpenRouter resp with
    | Except.ok newData =>
      ({ st with
          value := newData
          promptText := []
          rawText := (if st.mode = .raw then stringify (orEmptyObj newData) else st.rawText)
          errShown := (if st.mode = .raw then false else st.errShown) },
        ⟨[newData], [⟨updateOkMsg, .success⟩]⟩)
    | Except.error m => (st, ⟨[], [⟨m, .error⟩]⟩)

/-- The scenario of the provisional-raw-edit claim: fresh editor on `v`,
enter raw mode, type `bad`, blur (focus leaves the textarea when the mode
button is clicked), switch to preview, re-enter raw mode. -/
def modeRoundTrip (v : JValue) (bad : List Char) : EditorState :=
  let st0 : EditorState :=
    { value := v, mode := .preview, rawText := [], errShown := false, promptText := [] }
  let st1 := setMode st0 .raw
  let st2 := (handleRawChange st1 bad).1
  let st3 := (handleRawBlur st2).1
  let st4 := setMode st3 .preview
  setMode st4 .raw

/-- Marker text rendered for `null`/`undefined` nodes. -/
def markerNotProvided : List Char := "Not provided".toList

/-- Marker text rendered for an empty array. -/
def markerEmptyList : List Char := "Empty list".toList

/-- Marker text rendered for an empty object. -/
def markerEmptyObj : List Char := "Empty".toList

/-- Abstract rendering produced by `renderNode`: markers keep their display
text, objects keep their humanized keys, booleans inside objects become
badges, scalars become plain text.  Styling wrappers are not modelled. -/
inductive RenderNode where
  | marker : List Char → RenderNode
  | text : List Char → RenderNode
  | boolBadge : Bool → RenderNode
  | list : List RenderNode → RenderNode
  | fields : List (List Char × RenderNode) → RenderNode

/-- Humanized object key: underscores become spaces. -/
def humanKey (k : List Char) : List Char :=
  k.map (fun c => if c = '_' then ' ' else c)

mutual

/-- `renderNode` of `HumanReadableDisplay`: null maps to the
"Not provided" marker, an empty array to the "Empty list" marker, an empty
object to the "Empty" marker; other arrays render their elements, other
objects render humanized-key rows (boolean values as badges), and scalars
render as `String(node)` text.  The depth argument is threaded exactly as
in the source, where it only selects indentation styling. -/
def renderNode : JValue → Nat → RenderNode
  | .null, _ => .marker markerNotProvided
  | .arr [], _ => .marker markerEmptyList
  | .arr (x :: xs), d => .list (renderList (x :: xs) d)
  | .obj [], _ => .marker markerEmptyObj
  | .obj (f :: fs), d => .fields (renderFields (f :: fs) d)
  | .bool b, _ => .text (if b then ['t', 'r', 'u', 'e'] else ['f', 'a', 'l', 's', 'e'])
  | .num n, _ => .text (intChars n)
  | .str s, _ => .text s

/-- Array elements, each rendered one level deeper. -/
def renderList : List JValue → Nat → List RenderNode
  | [], _ => []
  | x :: xs, d => renderNode x (d + 1) :: renderList xs d

/-- Object rows: humanized key, with boolean values special-cased into
badges before recursion. -/
def renderFields : List (List Char × JValue) → Nat → List (List Char × RenderNode)
  | [], _ => []
  | (k, v) :: fs, d =>
    (humanKey k,
      match v with
      | .bool b => RenderNode.boolBadge b
      | _ => renderNode v (d + 1)) :: renderFields fs d

end

/-- The fields of the tour form inspected by `handleSave`; `slugErr` is the
`slugError` state string (empty when no error is displayed), set by the
debounced uniqueness check `checkSlug`. -/
structure TourForm where
  title : List Char
  slug : List Char
  slugErr : List Char

/-- Outcome of one `handleSave` invocation: the `onSave` calls made, the
toasts emitted, and the active tab afterwards. -/
structure SaveOutcome where
  onSaveCalls : List TourForm
  toasts : List Toast
  activeTab : List Char

/-- Identifier of the basic-info tab. -/
def tabBasic : List Char := "basic".toList

/-- The slug-uniqueness error message set by the debounced check. -/
def slugInUseMsg : List Char := "Slug is already in use".toList

/-- The debounced slug check: returns the new `slugError` value given the
slug of the tour being edited (if any), the debounced slug text, and the
number of rows the store reports for that slug.  An empty slug leaves the
previous error untouched; the database-error path is out of scope. -/
def checkSlug (tourSlug : Option (List Char)) (debounced : List Char)
    (dbMatches : Nat) (old : List Char) : List Char :=
  if debounced = [] then old
  else if tourSlug = some debounced then []
  else if dbMatches > 0 then slugInUseMsg
  else []

/-- `handleSave`: an empty title or slug, or a pending slug error, blocks
the save — one error toast, focus the basic tab, and no `onSave` call;
otherwise `onSave(formData)` is invoked. -/
def handleSave (fd : TourForm) (tab : List Char) : SaveOutcome :=
  if fd.title = [] || fd.slug = [] then
    ⟨[], [⟨"Title and slug are required".toList, .error⟩], tabBasic⟩
  else if fd.slugErr ≠ [] then
    ⟨[], [⟨"Please fix slug errors".toList, .error⟩], tabBasic⟩
  else ⟨[fd], [], tab⟩

/-- Regex `\s` (ASCII fragment — space, tab, newline, carriage return,
vertical tab, form feed; the Unicode space code points play no role in the
verified properties). -/
def isSpaceRe (c : Char) : Bool :=
  c.toNat = 32 || c.toNat = 9 || c.toNat = 10 || c.toNat = 13
    || c.toNat = 11 || c.toNat = 12

/-- Regex `\w`: ASCII letters, digits and underscore. -/
def isWordC (c : Char) : Bool :=
  (48 ≤ c.toNat && c.toNat ≤ 57) || (65 ≤ c.toNat && c.toNat ≤ 90)
    || (97 ≤ c.toNat && c.toNat ≤ 122) || c.toNat = 95

/-- `replace(/\s+/g, '-')`: each maximal whitespace run becomes one
hyphen (emitted at the last character of the run). -/
def collapseWs : List Char → List Char
  | c :: c2 :: cs =>
    if isSpaceRe c then
      if isSpaceRe c2 then collapseWs (c2 :: cs) else '-' :: collapseWs (c2 :: cs)
    else c :: collapseWs (c2 :: cs)
  | [c] => if isSpaceRe c then ['-'] else [c]
  | [] => []

/-- `replace(/\-\-+/g, '-')`: each hyphen run keeps only its last hyphen,
which is the same replacement the regex performs. -/
def collapseHyph : List Char → List Char
  | c :: c2 :: cs =>
    if c = '-' && c2 = '-' then collapseHyph (c2 :: cs)
    else c :: collapseHyph (c2 :: cs)
  | s => s

/-- `slugify`: lowercase, whitespace runs to hyphens, drop non-word
non-hyphen characters, collapse hyphen runs, strip leading and trailing
hyphens.  `lowAlpha` is the ASCII fragment of `toLowerCase` (non-ASCII
letters are dropped by the filter step in both the source and the model
whenever they are not word characters). -/
def slugify (s : List Char) : List Char :=
  dropTail (fun c => c = '-')
    (List.dropWhile (fun c => c = '-')
      (collapseHyph
        (List.filter (fun c => isWordC c || c = '-')
          (collapseWs (s.map lowAlpha)))))

/-- Boolean prefix test on character lists (first argument is the
pattern). -/
def startsWithSeq : List Char → List Char → Bool
  | [], _ => true
  | _ :: _, [] => false
  | p :: ps, c :: cs => c = p && startsWithSeq ps cs

/-- Boolean substring (contiguous subsequence) test on character lists. -/
def containsSeq (pat : List Char) : List Char → Bool
  | [] => startsWithSeq pat []
  | c :: cs => startsWithSeq pat (c :: cs) || containsSeq pat cs

/-- A triple backtick. -/
def tick3 : List Char := [tickC, tickC, tickC]

/-- Response text wrapped in a `json`-tagged fenced code block. -/
def wrapJson (t : List Char) : List Char :=
  tickC :: tickC :: tickC :: 'j' :: 's' :: 'o' :: 'n' :: '\n' :: t
    ++ '\n' :: tickC :: tickC :: [tickC]

/-- Response text wrapped in an untagged fenced code block. -/
def wrapPlain (t : List Char) : List Char :=
  tickC :: tickC :: tickC :: '\n' :: t ++ '\n' :: tickC :: tickC :: [tickC]

/-- The example document of the spec example flow. -/
def basePriceDoc : JValue := .obj [("base_price".toList, .num 100)]

/-- Editor state for the example flow (preview mode, prompt typed). -/
def basePriceState : EditorState :=
  { value := basePriceDoc, mode := .preview, rawText := [], errShown := false,
    promptText := "change price to 150".toList }

/-- Mocked failing network response. -/
def respNet : ChatResponse := ⟨false, "Internal Server Error".toList, "\x7b\x7d".toList⟩

/-- Mocked 2xx response whose content is prose, not JSON. -/
def respProse : ChatResponse :=
  ⟨true, "OK".toList, "Here is your JSON: oops".toList⟩

/-- Raw-mode editor state whose buffer parses. -/
def stGoodRaw : EditorState :=
  { value := .null, mode := .raw, rawText := ['1'], errShown := false, promptText := [] }

/-- Raw-mode editor state whose buffer does not parse. -/
def stBadRaw : EditorState :=
  { value := .null, mode := .raw, rawText := ['['], errShown := false, promptText := [] }

/-- Whether the match of the first `replace` regex could start at the head
of the input: three backticks followed by the (case-insensitive) letters
`json`. -/
def startsJsonFence : List Char → Bool
  | c :: c2 :: c3 :: c4 :: c5 :: c6 :: c7 :: _ =>
    c = tickC && c2 = tickC && c3 = tickC && isJsonTag c4 c5 c6 c7
  | _ => false

/-- No position of the input starts a match of the first `replace`
regex. -/
def noJsonFence : List Char → Bool
  | [] => true
  | c :: cs => !startsJsonFence (c :: cs) && noJsonFence cs

/-- No position strictly inside the first list starts a triple backtick,
even looking across the boundary into the second list. -/
def fenceFree : List Char → List Char → Bool
  | [], _ => true
  | c :: cs, v => !startsWithSeq tick3 (c :: (cs ++ v)) && fenceFree cs v

/-- The list does not begin with a backtick. -/
def headNonTick : List Char → Bool
  | [] => true
  | c :: _ => !(c = tickC)

/-- A JSON string literal whose body contains a triple backtick. -/
def tickyStr : List Char := '"' :: 'a' :: tickC :: tickC :: tickC :: 'b' :: ['"']

/-- An inner text that begins with a triple backtick: wrapped in a fence,
the newline supplied by the wrap completes a fence-opener match inside the
payload, so the wrapped and unwrapped texts normalize differently. -/
def tailFence : List Char := tickC :: tickC :: tickC :: 'a' :: 'b' :: ['c']

/-- A payload padded with a vertical tab: `.trim()` strips the VT but
`JSON.parse` rejects it, so normalization changes the parse result even
though the text is backtick-free. -/
def vtOne : List Char := [Char.ofNat 11, '1']

/-- Lowercase word character: lowercase ASCII letter, digit, or
underscore. -/
def isSlugC (c : Char) : Bool :=
  (97 ≤ c.toNat && c.toNat ≤ 122) || (48 ≤ c.toNat && c.toNat ≤ 57) || c.toNat = 95

/-- The list contains two adjacent hyphens. -/
def hasDD : List Char → Bool
  | c :: c2 :: cs => (c = '-' && c2 = '-') || hasDD (c2 :: cs)
  | _ => false

/-- Well-formed slug: only lowercase word characters and hyphens, no
double hyphen, no leading hyphen, no trailing hyphen. -/
def SlugOK (s : List Char) : Prop :=
  (∀ c ∈ s, isSlugC c = true ∨ c = '-') ∧ hasDD s = false ∧
  (∀ c t, s = c :: t → ¬c = '-') ∧ (∀ c, s.getLast? = some c → ¬c = '-')

theorem dropWhile_head_neg (p : Char → Bool) (l : List Char) (c : Char)
    (t : List Char) (h : l.dropWhile p = c :: t) : p c = false := by
  induction l with
  | nil => simp at h
  | cons a l ih =>
    rw [List.dropWhile_cons] at h
    by_cases ha : p a = true
    · rw [if_pos ha] at h; exact ih h
    · rw [if_neg ha] at h
      cases h
      simpa using ha

theorem ws_imp_jsWs (c : Char) (h : isWsC c = true) : isJsWsC c = true := by
  simp only [isWsC, Bool.or_eq_true, decide_eq_true_eq] at h
  rcases h with ((h | h) | h) | h <;> subst h <;> decide

theorem trimC_nil_all (s : List Char) (h : trimC s = []) : ∀ c ∈ s, isWsC c = true := by
  rcases hdw : List.dropWhile isWsC s with _ | ⟨c, t⟩
  · exact fun c hc => List.dropWhile_eq_nil_iff.mp hdw c hc
  · exfalso
    have hcf : isWsC c = false := dropWhile_head_neg isWsC s c t hdw
    unfold trimC at h
    rw [hdw] at h
    rw [show dropTail isWsC (c :: t)
        = (match dropTail isWsC t with
           | [] => if isWsC c then [] else [c]
           | t2 => c :: t2) from rfl] at h
    rcases hdt : dropTail isWsC t with _ | ⟨a, u⟩ <;> rw [hdt] at h <;> simp [hcf] at h

theorem jsTrim_nil_of_trimC_nil (s : List Char) (h : trimC s = []) : jsTrim s = [] := by
  have hall : ∀ c ∈ s, isJsWsC c = true :=
    fun c hc => ws_imp_jsWs c (trimC_nil_all s h c hc)
  unfold jsTrim
  rw [List.dropWhile_eq_nil_iff.mpr hall]
  rfl

/-- Claim C8: in the tree-mode renderer, the rendering of an empty array
(the "Empty list" marker), of null/undefined (the "Not provided" marker),
and of an empty object (the "Empty" marker) are pairwise distinct, at every
nesting depth (the source passes only the depth to recursive calls, so the
depth arguments below range over all nesting positions). -/
theorem renderNode_markers_distinct (d1 d2 d3 : Nat) :
    renderNode (.arr []) d1 ≠ renderNode .null d2 ∧
    renderNode (.arr []) d1 ≠ renderNode (.obj []) d3 ∧
    renderNode .null d2 ≠ renderNode (.obj []) d3 := by
  refine ⟨fun h => ?_, fun h => ?_, fun h => ?_⟩
  · rw [show renderNode (.arr []) d1 = .marker markerEmptyList from rfl,
      show renderNode .null d2 = .marker markerNotProvided from rfl] at h
    injection h with h3
    exact absurd h3 (by decide)
  · rw [show renderNode (.arr []) d1 = .marker markerEmptyList from rfl,
      show renderNode (.obj []) d3 = .marker markerEmptyObj from rfl] at h
    injection h with h3
    exact absurd h3 (by decide)
  · rw [show renderNode .null d2 = .marker markerNotProvided from rfl,
      show renderNode (.obj []) d3 = .marker markerEmptyObj from rfl] at h
    injection h with h3
    exact absurd h3 (by decide)

/-- Claim C9: whenever the title is empty, the slug is empty, or a slug
error is pending (the slug is known to be non-unique), `handleSave` makes
no `onSave` call, emits exactly one toast, and focuses the basic-info
tab. -/
theorem handleSave_blocks (fd : TourForm) (tab : List Char)
    (h : fd.title = [] ∨ fd.slug = [] ∨ fd.slugErr ≠ []) :
    (handleSave fd tab).onSaveCalls = [] ∧
    (handleSave fd tab).toasts.length = 1 ∧
    (handleSave fd tab).activeTab = tabBasic := by
  unfold handleSave
  rcases h with h | h | h
  · simp [h]
  · simp [h]
  · by_cases h1 : fd.title = []
    · simp [h1]
    · by_cases h2 : fd.slug = []
      · simp [h2]
      · simp [h1, h2, h]

/-- Claim C9 witness: an empty title blocks the save. -/
theorem handleSave_blocks_witness :
    (handleSave ⟨[], ['a'], []⟩ ['z']).onSaveCalls = [] ∧
    (handleSave ⟨[], ['a'], []⟩ ['z']).toasts.length = 1 ∧
    (handleSave ⟨[], ['a'], []⟩ ['z']).activeTab = tabBasic :=
  handleSave_blocks ⟨[], ['a'], []⟩ ['z'] (Or.inl rfl)

/-- Claim C2: on a failing generation attempt (non-2xx status, or content
that does not parse as JSON after fence-stripping) the Document is
unchanged, `onChange` is never called, and exactly one error toast is
emitted. -/
theorem handleAIGenerate_failure_isolation (st : EditorState) (resp : ChatResponse)
    (hp : jsTrim st.promptText ≠ [])
    (hfail : resp.ok = false ∨ jparse (normalizeContent resp.content) = none) :
    (handleAIGenerate st resp).1.value = st.value ∧
    (handleAIGenerate st resp).2.onChangeCalls = [] ∧
    (handleAIGenerate st resp).2.toasts = [⟨aiFailMsg, ToastKind.error⟩] := by
  have hp2 : trimC st.promptText ≠ [] := fun h => hp (jsTrim_nil_of_trimC_nil _ h)
  have hc : callOpenRouter resp = Except.error aiFailMsg := by
    unfold callOpenRouter callOpenRouterTry
    by_cases hok : resp.ok
    · rcases hfail with h | h
      · rw [h] at hok; exact absurd hok (by simp)
      · simp [hok, h]
    · simp [hok]
  simp [handleAIGenerate, hp2, hc]

/-- Claim C2 witness: a non-2xx response and a prose response each leave
the example Document unchanged with one error toast. -/
theorem handleAIGenerate_failure_isolation_witness :
    ((handleAIGenerate basePriceState respNet).1.value = basePriceState.value ∧
      (handleAIGenerate basePriceState respNet).2.onChangeCalls = [] ∧
      (handleAIGenerate basePriceState respNet).2.toasts = [⟨aiFailMsg, ToastKind.error⟩]) ∧
    ((handleAIGenerate basePriceState respProse).1.value = basePriceState.value ∧
      (handleAIGenerate basePriceState respProse).2.onChangeCalls = [] ∧
      (handleAIGenerate basePriceState respProse).2.toasts = [⟨aiFailMsg, ToastKind.error⟩]) :=
  ⟨handleAIGenerate_failure_isolation basePriceState respNet (by decide) (Or.inl rfl),
    handleAIGenerate_failure_isolation basePriceState respProse (by decide) (Or.inr rfl)⟩

/-- Claim C5: in raw mode every keystroke re-parses the buffer, setting or
clearing only the inline error and never calling `onChange`; on blur a
successful parse commits the parsed value as the Document and clears the
error, while a failed parse shows the error and leaves the Document
unchanged. -/
theorem rawMode_commit_spec (st : EditorState) (text : List Char) :
    ((handleRawChange st text).2 = [] ∧
      (handleRawChange st text).1.value = st.value ∧
      (handleRawChange st text).1.errShown = (jparse text).isNone ∧
      (handleRawChange st text).1.rawText = text) ∧
    (∀ v, jparse st.rawText = some v →
      (handleRawBlur st).1.value = v ∧ (handleRawBlur st).2 = [v] ∧
      (handleRawBlur st).1.errShown = false) ∧
    (jparse st.rawText = none →
      (handleRawBlur st).1.value = st.value ∧ (handleRawBlur st).2 = [] ∧
      (handleRawBlur st).1.errShown = true) := by
  refine ⟨⟨rfl, rfl, rfl, rfl⟩, fun v hv => ?_, fun hn => ?_⟩
  · simp [handleRawBlur, hv]
  · simp [handleRawBlur, hn]

/-- Claim C5 witness: a parsing buffer commits on blur; a non-parsing
buffer leaves the Document unchanged and shows the error. -/
theorem rawMode_commit_spec_witness :
    ((handleRawBlur stGoodRaw).1.value = .num 1 ∧ (handleRawBlur stGoodRaw).2 = [.num 1]) ∧
    ((handleRawBlur stBadRaw).1.value = stBadRaw.value ∧ (handleRawBlur stBadRaw).2 = [] ∧
      (handleRawBlur stBadRaw).1.errShown = true) := by
  have h1 := (rawMode_commit_spec stGoodRaw ['1']).2.1 (.num 1) rfl
  have h2 := (rawMode_commit_spec stBadRaw ['[']).2.2 rfl
  exact ⟨⟨h1.1, h1.2.1⟩, h2⟩

/-- Claim C1 counterexample: for the concrete non-2xx response with status
text "Internal Server Error", the error handed to the caller is the fixed
generic message, which does not contain the status text, and it is the very
same error value produced for a 2xx response whose content fails to parse —
so the status text is not surfaced and the two failures are not
distinguishable by the caller. -/
theorem callOpenRouter_counterexample :
    callOpenRouter respNet = Except.error aiFailMsg ∧
    callOpenRouter respProse = Except.error aiFailMsg ∧
    containsSeq respNet.statusText aiFailMsg = false :=
  ⟨rfl, rfl, rfl⟩

/-- Claim C1 amended: a non-2xx response makes `callOpenRouter` fail, but
the status text survives only in the error thrown inside the try block;
the catch-all rethrows the fixed generic message, identical to the one
produced for content that fails to parse as JSON, so the caller cannot
distinguish the two failures. -/
theorem callOpenRouter_error_collapsing (resp : ChatResponse) (h : resp.ok = false) :
    callOpenRouterTry resp = Except.error (apiErrorMsg resp.statusText) ∧
    callOpenRouter resp = Except.error aiFailMsg ∧
    (∀ r2 : ChatResponse, r2.ok = true → jparse (normalizeContent r2.content) = none →
      callOpenRouter r2 = Except.error aiFailMsg) := by
  refine ⟨?_, ?_, fun r2 h2 hp => ?_⟩
  · simp [callOpenRouterTry, h]
  · simp [callOpenRouter, callOpenRouterTry, h]
  · simp [callOpenRouter, callOpenRouterTry, h2, hp]

/-- Claim C1 amended witness. -/
theorem callOpenRouter_error_collapsing_witness :
    callOpenRouterTry respNet = Except.error (apiErrorMsg respNet.statusText) ∧
    callOpenRouter respNet = Except.error aiFailMsg ∧
    callOpenRouter respProse = Except.error aiFailMsg := by
  have h := callOpenRouter_error_collapsing respNet rfl
  exact ⟨h.1, h.2.1, h.2.2 respProse rfl rfl⟩

/-- Claim C6 counterexample: for the Document `null` (a JavaScript-falsy
value) and the never-parsing edit "[", the raw buffer after re-entering raw
mode is the serialization of the empty object substituted by
`value || \x7b\x7d`, not the serialization of the original Document. -/
theorem modeRoundTrip_counterexample :
    jparse ['['] = none ∧
    (modeRoundTrip .null ['[']).rawText ≠ stringify .null := by
  refine ⟨rfl, fun h => ?_⟩
  rw [show (modeRoundTrip .null ['[']).rawText = [lcurl, rcurl] from rfl,
    show stringify JValue.null = ['n', 'u', 'l', 'l'] from rfl] at h
  exact absurd h (by decide)

/-- Claim C6 amended: for every Document that is not JavaScript-falsy and
every raw edit that never parses, entering raw mode, typing the invalid
text, blurring, switching to tree mode and re-entering raw mode restores
the buffer to the pretty-printed serialization of the original Document,
which is also unchanged (for falsy Documents — null, false, 0, "" — the
buffer is the serialization of the empty object, per the `value || \x7b\x7d`
fallback). -/
theorem modeRoundTrip_restores (v : JValue) (bad : List Char)
    (ht : jsTruthy v = true) (hb : jparse bad = none) :
    (modeRoundTrip v bad).rawText = stringify v ∧
    (modeRoundTrip v bad).value = v := by
  have ho : orEmptyObj v = v := by simp [orEmptyObj, ht]
  unfold modeRoundTrip
  simp [setMode, handleRawChange, handleRawBlur, hb, ho]

/-- Claim C6 amended witness. -/
theorem modeRoundTrip_restores_witness :
    (modeRoundTrip basePriceDoc ['[']).rawText = stringify basePriceDoc ∧
    (modeRoundTrip basePriceDoc ['[']).value = basePriceDoc :=
  modeRoundTrip_restores basePriceDoc ['['] rfl rfl

theorem sJF_shape (s : List Char) (h : startsJsonFence s = true) :
    ∃ c4 c5 c6 c7 r, s = tickC :: tickC :: tickC :: c4 :: c5 :: c6 :: c7 :: r ∧
      isJsonTag c4 c5 c6 c7 = true := by
  rcases s with _ | ⟨x1, _ | ⟨x2, _ | ⟨x3, _ | ⟨x4, _ | ⟨x5, _ | ⟨x6, _ | ⟨x7, r⟩⟩⟩⟩⟩⟩⟩ <;>
    simp only [startsJsonFence, Bool.and_eq_true, decide_eq_true_eq] at h
  iterate 7 exact absurd h (by simp)
  obtain ⟨⟨⟨h1, h2⟩, h3⟩, h4⟩ := h
  subst h1; subst h2; subst h3
  exact ⟨x4, x5, x6, x7, r, rfl, h4⟩

theorem sJF_tick3 (s : List Char) (h : startsJsonFence s = true) :
    startsWithSeq tick3 s = true := by
  obtain ⟨c4, c5, c6, c7, r, hs, _⟩ := sJF_shape s h
  subst hs
  simp [startsWithSeq, tick3]

theorem startsTick_append (w v : List Char) (hv : headNonTick v = true) :
    startsWithSeq tick3 (w ++ v) = startsWithSeq tick3 w := by
  rcases w with _ | ⟨x1, _ | ⟨x2, _ | ⟨x3, r⟩⟩⟩ <;>
    rcases v with _ | ⟨c, cs⟩ <;>
    simp_all [startsWithSeq, tick3, headNonTick]

theorem fenceFree_of (u v : List Char) (hu : containsSeq tick3 u = false)
    (hv : headNonTick v = true) : fenceFree u v = true := by
  induction u with
  | nil => rfl
  | cons c cs ih =>
    rw [show containsSeq tick3 (c :: cs)
        = (startsWithSeq tick3 (c :: cs) || containsSeq tick3 cs) from rfl,
      Bool.or_eq_false_iff] at hu
    rw [show fenceFree (c :: cs) v
        = (!startsWithSeq tick3 (c :: (cs ++ v)) && fenceFree cs v) from rfl,
      Bool.and_eq_true, Bool.not_eq_true']
    exact ⟨by
      rw [show c :: (cs ++ v) = (c :: cs) ++ v from rfl, startsTick_append _ _ hv]
      exact hu.1, ih hu.2⟩

theorem noJsonFence_parts (u v : List Char) (hu : containsSeq tick3 u = false)
    (hv : headNonTick v = true) (hv2 : noJsonFence v = true) :
    noJsonFence (u ++ v) = true := by
  induction u with
  | nil => simpa using hv2
  | cons c cs ih =>
    rw [show containsSeq tick3 (c :: cs)
        = (startsWithSeq tick3 (c :: cs) || containsSeq tick3 cs) from rfl,
      Bool.or_eq_false_iff] at hu
    rw [List.cons_append,
      show noJsonFence (c :: (cs ++ v))
        = (!startsJsonFence (c :: (cs ++ v)) && noJsonFence (cs ++ v)) from rfl,
      Bool.and_eq_true, Bool.not_eq_true']
    refine ⟨?_, ih hu.2⟩
    cases hS : startsJsonFence (c :: (cs ++ v))
    · rfl
    · have h2 := sJF_tick3 _ hS
      rw [show c :: (cs ++ v) = (c :: cs) ++ v from rfl, startsTick_append _ _ hv] at h2
      rw [h2] at hu
      exact absurd hu.1 (by simp)

theorem sJF_head_nontick (c : Char) (w : List Char) (hc : ¬c = tickC) :
    startsJsonFence (c :: w) = false := by
  cases hS : startsJsonFence (c :: w)
  · rfl
  · have h2 := sJF_tick3 _ hS
    rw [show startsWithSeq tick3 (c :: w) = (c = tickC && startsWithSeq [tickC, tickC] w)
      from rfl] at h2
    simp only [Bool.and_eq_true, decide_eq_true_eq] at h2
    exact absurd h2.1 hc

theorem repl1_step (c : Char) (w : List Char) (h : startsJsonFence (c :: w) = false) :
    repl1 (c :: w) = c :: repl1 w := by
  rcases w with _ | ⟨x1, _ | ⟨x2, _ | ⟨x3, _ | ⟨x4, _ | ⟨x5, _ | ⟨x6, r⟩⟩⟩⟩⟩⟩ <;>
    simp_all [repl1, startsJsonFence]

theorem repl1_id (s : List Char) (h : noJsonFence s = true) : repl1 s = s := by
  induction s with
  | nil => rfl
  | cons c cs ih =>
    rw [show noJsonFence (c :: cs) = (!startsJsonFence (c :: cs) && noJsonFence cs) from rfl,
      Bool.and_eq_true, Bool.not_eq_true'] at h
    rw [repl1_step c cs h.1, ih h.2]

theorem fenceTail_len (u : List Char) : ∀ r, fenceTail u = some r → r.length < u.length := by
  induction u with
  | nil => intro r h; exact absurd h (by simp [fenceTail])
  | cons c cs ih =>
    intro r h
    rw [show fenceTail (c :: cs)
        = (if c = '\n' then some cs
           else if isAsciiLetter c then fenceTail cs else none) from rfl] at h
    by_cases hn : c = '\n'
    · rw [if_pos hn] at h
      injection h with h2
      rw [← h2, List.length_cons]
      omega
    · rw [if_neg hn] at h
      by_cases hl : isAsciiLetter c = true
      · rw [if_pos hl] at h
        have := ih r h
        rw [List.length_cons]
        omega
      · rw [if_neg hl] at h
        exact absurd h (by simp)

theorem fenceMatch_len (c : Char) (w r : List Char) (h : fenceMatch (c :: w) = some r) :
    r.length < w.length := by
  rcases w with _ | ⟨x1, _ | ⟨x2, cs⟩⟩
  · exact absurd h (by rw [show fenceMatch [c] = none from rfl]; simp)
  · exact absurd h (by rw [show fenceMatch [c, x1] = none from rfl]; simp)
  · rw [show fenceMatch (c :: x1 :: x2 :: cs)
        = (if c = tickC && x1 = tickC && x2 = tickC then fenceTail cs else none)
      from rfl] at h
    by_cases ht : (c = tickC && x1 = tickC && x2 = tickC) = true
    · rw [if_pos ht] at h
      have := fenceTail_len cs r h
      simp only [List.length_cons]
      omega
    · rw [if_neg ht] at h
      exact absurd h (by simp)

theorem repl2Go_unfuel (n : Nat) : ∀ s : List Char, s.length ≤ n → repl2Go n s = repl2 s := by
  induction n using Nat.strong_induction_on with
  | _ n ih =>
    intro s hs
    rcases s with _ | ⟨c, cs⟩
    · cases n with
      | zero => rfl
      | succ m => rfl
    · rw [List.length_cons] at hs
      cases n with
      | zero => omega
      | succ m =>
        rw [show repl2Go (m + 1) (c :: cs)
            = (match fenceMatch (c :: cs) with
               | some rest => repl2Go m rest
               | none => c :: repl2Go m cs) from rfl,
          show repl2 (c :: cs)
            = (match fenceMatch (c :: cs) with
               | some rest => repl2Go cs.length rest
               | none => c :: repl2Go cs.length cs) from rfl]
        rcases hm : fenceMatch (c :: cs) with _ | rest
        · show c :: repl2Go m cs = c :: repl2Go cs.length cs
          rw [ih m (by omega) cs (by omega),
            ih cs.length (by omega) cs (Nat.le_refl _)]
        · have hl := fenceMatch_len c cs rest hm
          show repl2Go m rest = repl2Go cs.length rest
          rw [ih m (by omega) rest (by omega),
            ih cs.length (by omega) rest (by omega)]

theorem repl2_nomatch_step (c : Char) (w : List Char) (h : fenceMatch (c :: w) = none) :
    repl2 (c :: w) = c :: repl2 w := by
  rw [show repl2 (c :: w)
      = (match fenceMatch (c :: w) with
         | some rest => repl2Go w.length rest
         | none => c :: repl2Go w.length w) from rfl, h]
  rfl

theorem repl2_match_step (c : Char) (w rest : List Char)
    (h : fenceMatch (c :: w) = some rest) :
    repl2 (c :: w) = repl2 rest := by
  rw [show repl2 (c :: w)
      = (match fenceMatch (c :: w) with
         | some r => repl2Go w.length r
         | none => c :: repl2Go w.length w) from rfl, h]
  show repl2Go w.length rest = repl2 rest
  exact repl2Go_unfuel w.length rest (by have := fenceMatch_len c w rest h; omega)

theorem fenceMatch_none_of_noTick (c : Char) (w : List Char)
    (h : startsWithSeq tick3 (c :: w) = false) : fenceMatch (c :: w) = none := by
  rcases w with _ | ⟨x1, _ | ⟨x2, r⟩⟩ <;> simp_all [fenceMatch, startsWithSeq, tick3]

theorem repl2_append (u v : List Char) (h : fenceFree u v = true) :
    repl2 (u ++ v) = u ++ repl2 v := by
  induction u with
  | nil => rfl
  | cons c cs ih =>
    rw [show fenceFree (c :: cs) v
        = (!startsWithSeq tick3 (c :: (cs ++ v)) && fenceFree cs v) from rfl,
      Bool.and_eq_true, Bool.not_eq_true'] at h
    rw [List.cons_append,
      repl2_nomatch_step c (cs ++ v) (fenceMatch_none_of_noTick c (cs ++ v) h.1),
      ih h.2, List.cons_append]

theorem repl2_id (s : List Char) (h : containsSeq tick3 s = false) : repl2 s = s := by
  induction s with
  | nil => rfl
  | cons c cs ih =>
    rw [show containsSeq tick3 (c :: cs)
        = (startsWithSeq tick3 (c :: cs) || containsSeq tick3 cs) from rfl,
      Bool.or_eq_false_iff] at h
    rw [repl2_nomatch_step c cs (fenceMatch_none_of_noTick c cs h.1), ih h.2]

theorem repl3_step (c : Char) (w : List Char)
    (h : startsWithSeq tick3 (c :: w) = false) :
    repl3 (c :: w) = c :: repl3 w := by
  rcases w with _ | ⟨x1, _ | ⟨x2, r⟩⟩ <;> simp_all [repl3, startsWithSeq, tick3]

theorem repl3_append (u v : List Char) (h : fenceFree u v = true) :
    repl3 (u ++ v) = u ++ repl3 v := by
  induction u with
  | nil => rfl
  | cons c cs ih =>
    rw [show fenceFree (c :: cs) v
        = (!startsWithSeq tick3 (c :: (cs ++ v)) && fenceFree cs v) from rfl,
      Bool.and_eq_true, Bool.not_eq_true'] at h
    rw [List.cons_append, repl3_step c (cs ++ v) h.1, ih h.2, List.cons_append]

theorem dropTail_concat_pos (p : Char → Bool) (x : List Char) (c : Char)
    (hc : p c = true) : dropTail p (x ++ [c]) = dropTail p x := by
  induction x with
  | nil => simp [dropTail, hc]
  | cons a x ih =>
    rw [List.cons_append,
      show dropTail p (a :: (x ++ [c]))
        = (match dropTail p (x ++ [c]) with
           | [] => if p a then [] else [a]
           | t => a :: t) from rfl, ih,
      show dropTail p (a :: x)
        = (match dropTail p x with
           | [] => if p a then [] else [a]
           | t => a :: t) from rfl]

theorem dropTail_head (p : Char → Bool) (c : Char) (cs : List Char) :
    dropTail p (c :: cs) = [] ∨ ∃ t, dropTail p (c :: cs) = c :: t := by
  rw [show dropTail p (c :: cs)
      = (match dropTail p cs with
         | [] => if p c then [] else [c]
         | t => c :: t) from rfl]
  rcases h : dropTail p cs with _ | ⟨a, t⟩
  · by_cases hc : p c = true
    · simp [hc]
    · simp [hc]
  · exact Or.inr ⟨a :: t, rfl⟩

theorem dropTail_idem (p : Char → Bool) (s : List Char) :
    dropTail p (dropTail p s) = dropTail p s := by
  induction s with
  | nil => rfl
  | cons c cs ih =>
    rw [show dropTail p (c :: cs)
        = (match dropTail p cs with
           | [] => if p c then [] else [c]
           | t => c :: t) from rfl]
    rcases h : dropTail p cs with _ | ⟨a, t⟩
    · by_cases hc : p c = true
      · simp [hc, dropTail]
      · simp [hc, dropTail]
    · have h2 : dropTail p (a :: t) = a :: t := by rw [← h, ih, h]
      rw [show dropTail p (c :: a :: t)
          = (match dropTail p (a :: t) with
             | [] => if p c then [] else [c]
             | t2 => c :: t2) from rfl, h2]

theorem trimC_cons_ws (c : Char) (s : List Char) (h : isWsC c = true) :
    trimC (c :: s) = trimC s := by
  simp [trimC, List.dropWhile_cons, h]

theorem trimC_concat_ws (s : List Char) (c : Char) (h : isWsC c = true) :
    trimC (s ++ [c]) = trimC s := by
  unfold trimC
  rw [List.dropWhile_append]
  rcases hdw : List.dropWhile isWsC s with _ | ⟨a, t⟩
  · simp [List.dropWhile_cons, h, dropTail]
  · simp only [List.isEmpty_cons, Bool.false_eq_true, if_false]
    exact dropTail_concat_pos isWsC (a :: t) c h

theorem trim_aux (a : List Char) (hhead : ∀ c t, a = c :: t → isWsC c = false) :
    List.dropWhile isWsC (dropTail isWsC a) = dropTail isWsC a := by
  rcases a with _ | ⟨c0, t0⟩
  · rfl
  · rcases dropTail_head isWsC c0 t0 with h | ⟨t1, h⟩
    · rw [h]; rfl
    · rw [h, List.dropWhile_cons, if_neg]
      simp [hhead c0 t0 rfl]

theorem trimC_idem (s : List Char) : trimC (trimC s) = trimC s := by
  unfold trimC
  rw [trim_aux (List.dropWhile isWsC s)
    (fun c t ht => dropWhile_head_neg isWsC s c t ht), dropTail_idem]

theorem jparse_trim (s : List Char) : jparse (trimC s) = jparse s := by
  unfold jparse
  rw [trimC_idem]

theorem sJF_false_of_tick3_false (s : List Char)
    (h : startsWithSeq tick3 s = false) : startsJsonFence s = false := by
  cases hS : startsJsonFence s
  · rfl
  · rw [sJF_tick3 s hS] at h
    exact absurd h (by simp)

theorem sJF_4th_not_j (c1 c2 c3 c4 : Char) (w : List Char)
    (hc : ¬lowAlpha c4 = 'j') : startsJsonFence (c1 :: c2 :: c3 :: c4 :: w) = false := by
  cases hS : startsJsonFence (c1 :: c2 :: c3 :: c4 :: w)
  · rfl
  · obtain ⟨d4, d5, d6, d7, r, heq, htag⟩ := sJF_shape _ hS
    injection heq with e1 heq; injection heq with e2 heq; injection heq with e3 heq
    injection heq with e4 heq
    subst e4
    rw [show isJsonTag c4 d5 d6 d7
        = (lowAlpha c4 = 'j' && lowAlpha d5 = 's' && lowAlpha d6 = 'o' && lowAlpha d7 = 'n')
      from rfl] at htag
    simp only [Bool.and_eq_true, decide_eq_true_eq] at htag
    exact absurd htag.1.1.1 hc

theorem jsTrim_cons_ws (c : Char) (s : List Char) (h : isJsWsC c = true) :
    jsTrim (c :: s) = jsTrim s := by
  simp [jsTrim, List.dropWhile_cons, h]

theorem jsTrim_concat_ws (s : List Char) (c : Char) (h : isJsWsC c = true) :
    jsTrim (s ++ [c]) = jsTrim s := by
  unfold jsTrim
  rw [List.dropWhile_append]
  rcases hdw : List.dropWhile isJsWsC s with _ | ⟨a, t⟩
  · simp [List.dropWhile_cons, h, dropTail]
  · simp only [List.isEmpty_cons, Bool.false_eq_true, if_false]
    exact dropTail_concat_pos isJsWsC (a :: t) c h

theorem repl3_id (s : List Char) (h : containsSeq tick3 s = false) : repl3 s = s := by
  induction s with
  | nil => rfl
  | cons c cs ih =>
    rw [show containsSeq tick3 (c :: cs)
        = (startsWithSeq tick3 (c :: cs) || containsSeq tick3 cs) from rfl,
      Bool.or_eq_false_iff] at h
    rw [repl3_step c cs h.1, ih h.2]

theorem noJsonFence_of (s : List Char) (h : containsSeq tick3 s = false) :
    noJsonFence s = true := by
  have h2 := noJsonFence_parts s [] h rfl rfl
  rwa [List.append_nil] at h2

/-- Claim C3 amended: for every inner text containing no triple backtick,
normalizing the response wrapped in a `json`-tagged or untagged fenced
code block strips exactly the fences and trims with the JavaScript trim
set, yielding precisely the trimmed inner text — the very string that
normalizing the unfenced inner text yields — so the JSON parse performed
downstream sees an identical string whether or not the response was
fenced.  (For inner texts containing a triple backtick the global replaces
can delete backticks inside the payload or interact with the fences, and
against the raw un-normalized inner text the parse can also differ on
payloads padded with non-JSON whitespace; see the counterexample.) -/
theorem normalize_strips_fences (t : List Char) (h : containsSeq tick3 t = false) :
    normalizeContent (wrapJson t) = jsTrim t ∧
    normalizeContent (wrapPlain t) = jsTrim t ∧
    normalizeContent (wrapJson t) = normalizeContent t ∧
    normalizeContent (wrapPlain t) = normalizeContent t := by
  have hvnt : headNonTick ('\n' :: tick3) = true := rfl
  have hff : fenceFree t ('\n' :: tick3) = true := fenceFree_of _ _ h hvnt
  have hnj : noJsonFence (t ++ '\n' :: tick3) = true := noJsonFence_parts _ _ h hvnt rfl
  have hnjn : noJsonFence ('\n' :: (t ++ '\n' :: tick3)) = true := by
    rw [show noJsonFence ('\n' :: (t ++ '\n' :: tick3))
        = (!startsJsonFence ('\n' :: (t ++ '\n' :: tick3))
            && noJsonFence (t ++ '\n' :: tick3)) from rfl,
      sJF_head_nontick _ _ (by decide), hnj]
    rfl
  have e2 : repl2 ('\n' :: tick3) = '\n' :: tick3 := rfl
  have e3 : repl3 ('\n' :: tick3) = ['\n'] := rfl
  have r1j : repl1 (wrapJson t) = '\n' :: (t ++ '\n' :: tick3) := by
    rw [show repl1 (wrapJson t) = repl1 ('\n' :: (t ++ '\n' :: tick3)) from rfl,
      repl1_id _ hnjn]
  have hJ : normalizeContent (wrapJson t) = jsTrim t := by
    unfold normalizeContent
    rw [r1j, repl2_nomatch_step '\n' _ (fenceMatch_none_of_noTick '\n' _ rfl),
      repl2_append t _ hff, e2, repl3_step '\n' _ rfl, repl3_append t _ hff, e3,
      jsTrim_cons_ws '\n' (t ++ ['\n']) rfl, jsTrim_concat_ws t '\n' rfl]
  have hnjp : noJsonFence (wrapPlain t) = true := by
    rw [show noJsonFence (wrapPlain t)
        = (!startsJsonFence (tickC :: tickC :: tickC :: ('\n' :: (t ++ '\n' :: tick3)))
            && (!startsJsonFence (tickC :: tickC :: ('\n' :: (t ++ '\n' :: tick3)))
            && (!startsJsonFence (tickC :: ('\n' :: (t ++ '\n' :: tick3)))
            && noJsonFence ('\n' :: (t ++ '\n' :: tick3))))) from rfl,
      sJF_4th_not_j tickC tickC tickC '\n' _ (by decide),
      sJF_false_of_tick3_false (tickC :: tickC :: ('\n' :: (t ++ '\n' :: tick3))) rfl,
      sJF_false_of_tick3_false (tickC :: ('\n' :: (t ++ '\n' :: tick3))) rfl,
      hnjn]
    rfl
  have r1p : repl1 (wrapPlain t) = wrapPlain t := repl1_id _ hnjp
  have r2p : repl2 (wrapPlain t) = repl2 (t ++ '\n' :: tick3) :=
    repl2_match_step tickC
      ((tickC :: tickC :: '\n' :: t) ++ ('\n' :: tickC :: tickC :: [tickC]))
      (t ++ '\n' :: tick3) rfl
  have hP : normalizeContent (wrapPlain t) = jsTrim t := by
    unfold normalizeContent
    rw [r1p, r2p, repl2_append t _ hff, e2, repl3_append t _ hff, e3,
      jsTrim_concat_ws t '\n' rfl]
  have hU : normalizeContent t = jsTrim t := by
    unfold normalizeContent
    rw [repl1_id t (noJsonFence_of t h), repl2_id t h, repl3_id t h]
  exact ⟨hJ, hP, hJ.trans hU.symm, hP.trans hU.symm⟩

/-- Claim C3 witness: the amended statement applied to a concrete
backtick-free payload. -/
theorem normalize_strips_fences_witness :
    containsSeq tick3 "\x7b\"a\": 1\x7d".toList = false ∧
    normalizeContent (wrapJson "\x7b\"a\": 1\x7d".toList)
      = jsTrim "\x7b\"a\": 1\x7d".toList ∧
    normalizeContent (wrapPlain "\x7b\"a\": 1\x7d".toList)
      = normalizeContent "\x7b\"a\": 1\x7d".toList := by
  have h := normalize_strips_fences "\x7b\"a\": 1\x7d".toList rfl
  exact ⟨rfl, h.1, h.2.2.2⟩

/-- Claim C3 counterexample: without the backtick-free hypothesis the
conclusions fail — for the string-literal payload containing a triple
backtick, normalizing the fenced wrap deletes the backticks inside the
payload instead of leaving the inner text intact; for a payload that opens
with a triple backtick, the fenced and unfenced texts normalize to
different strings; and a backtick-free payload padded with a vertical tab
parses after normalization although the raw inner text does not parse at
all, so normalization is not parse-transparent against the raw text. -/
theorem normalize_strips_fences_counterexample :
    normalizeContent (wrapJson tickyStr) ≠ jsTrim tickyStr ∧
    normalizeContent (wrapJson tailFence) ≠ normalizeContent tailFence ∧
    containsSeq tick3 vtOne = false ∧
    jparse (normalizeContent (wrapJson vtOne)) ≠ jparse vtOne := by
  refine ⟨fun h => ?_, fun h => ?_, rfl, fun h => ?_⟩
  · rw [show normalizeContent (wrapJson tickyStr) = '"' :: 'a' :: 'b' :: ['"'] from rfl,
      show jsTrim tickyStr = tickyStr from rfl] at h
    exact absurd h (by decide)
  · rw [show normalizeContent (wrapJson tailFence) = [] from rfl,
      show normalizeContent tailFence = ['a', 'b', 'c'] from rfl] at h
    exact absurd h (by decide)
  · rw [show jparse (normalizeContent (wrapJson vtOne)) = some (.num 1) from rfl,
      show jparse vtOne = none from rfl] at h
    exact absurd h (by simp)

theorem toNat_ofNat_small (n : Nat) (h : n < 55296) : (Char.ofNat n).toNat = n := by
  unfold Char.ofNat
  rw [dif_pos (Or.inl h : Nat.isValidChar n)]
  simp [Char.ofNatAux, Char.toNat, UInt32.toNat]

theorem char_eq_iff_toNat (c d : Char) : c = d ↔ c.toNat = d.toNat :=
  ⟨fun h => h ▸ rfl, fun h => by rw [← Char.ofNat_toNat c, ← Char.ofNat_toNat d, h]⟩

theorem lowAlpha_not_upper (c : Char) :
    ¬(65 ≤ (lowAlpha c).toNat ∧ (lowAlpha c).toNat ≤ 90) := by
  unfold lowAlpha
  by_cases h : (65 ≤ c.toNat && c.toNat ≤ 90) = true
  · rw [if_pos h]
    simp only [Bool.and_eq_true, decide_eq_true_eq] at h
    rw [toNat_ofNat_small (c.toNat + 32) (by omega)]
    omega
  · rw [if_neg h]
    simp only [Bool.and_eq_true, decide_eq_true_eq, not_and, not_le] at h
    omega

theorem collapseWs_chars (s : List Char) :
    ∀ c ∈ collapseWs s, c = '-' ∨ c ∈ s := by
  induction s with
  | nil => intro c hc; simp [collapseWs] at hc
  | cons a s ih =>
    intro c hc
    rcases s with _ | ⟨b, s'⟩
    · rw [show collapseWs [a] = if isSpaceRe a = true then ['-'] else [a] from rfl] at hc
      by_cases ha : isSpaceRe a = true
      · rw [if_pos ha] at hc
        simp at hc
        exact Or.inl hc
      · rw [if_neg ha] at hc
        simp at hc
        exact Or.inr (by simp [hc])
    · rw [show collapseWs (a :: b :: s')
          = (if isSpaceRe a = true then
              (if isSpaceRe b = true then collapseWs (b :: s')
               else '-' :: collapseWs (b :: s'))
             else a :: collapseWs (b :: s')) from rfl] at hc
      by_cases ha : isSpaceRe a = true
      · rw [if_pos ha] at hc
        by_cases hb : isSpaceRe b = true
        · rw [if_pos hb] at hc
          rcases ih c hc with h | h
          · exact Or.inl h
          · exact Or.inr (List.mem_cons_of_mem a h)
        · rw [if_neg hb] at hc
          rcases List.mem_cons.1 hc with h | h
          · exact Or.inl h
          · rcases ih c h with h2 | h2
            · exact Or.inl h2
            · exact Or.inr (List.mem_cons_of_mem a h2)
      · rw [if_neg ha] at hc
        rcases List.mem_cons.1 hc with h | h
        · exact Or.inr (by simp [h])
        · rcases ih c h with h2 | h2
          · exact Or.inl h2
          · exact Or.inr (List.mem_cons_of_mem a h2)

theorem collapseWs_id (s : List Char) (h : ∀ c ∈ s, isSpaceRe c = false) :
    collapseWs s = s := by
  induction s with
  | nil => rfl
  | cons a s ih =>
    rcases s with _ | ⟨b, s'⟩
    · rw [show collapseWs [a] = if isSpaceRe a = true then ['-'] else [a] from rfl,
        if_neg (by simp [h a (by simp)])]
    · rw [show collapseWs (a :: b :: s')
          = (if isSpaceRe a = true then
              (if isSpaceRe b = true then collapseWs (b :: s')
               else '-' :: collapseWs (b :: s'))
             else a :: collapseWs (b :: s')) from rfl,
        if_neg (by simp [h a (by simp)]),
        ih (fun c hc => h c (List.mem_cons_of_mem a hc))]

theorem collapseHyph_chars (s : List Char) :
    ∀ c ∈ collapseHyph s, c ∈ s := by
  induction s with
  | nil => intro c hc; simp [collapseHyph] at hc
  | cons a s ih =>
    intro c hc
    rcases s with _ | ⟨b, s'⟩
    · simpa [collapseHyph] using hc
    · rw [show collapseHyph (a :: b :: s')
          = (if (a = '-' && b = '-') = true then collapseHyph (b :: s')
             else a :: collapseHyph (b :: s')) from rfl] at hc
      by_cases hab : (a = '-' && b = '-') = true
      · rw [if_pos hab] at hc
        exact List.mem_cons_of_mem a (ih c hc)
      · rw [if_neg hab] at hc
        rcases List.mem_cons.1 hc with h | h
        · simp [h]
        · exact List.mem_cons_of_mem a (ih c h)

theorem collapseHyph_head (s : List Char) : (collapseHyph s).head? = s.head? := by
  induction s with
  | nil => rfl
  | cons a s ih =>
    rcases s with _ | ⟨b, s'⟩
    · rfl
    · rw [show collapseHyph (a :: b :: s')
          = (if (a = '-' && b = '-') = true then collapseHyph (b :: s')
             else a :: collapseHyph (b :: s')) from rfl]
      by_cases hab : (a = '-' && b = '-') = true
      · rw [if_pos hab, ih]
        simp only [Bool.and_eq_true, decide_eq_true_eq] at hab
        rw [hab.1, hab.2]
        rfl
      · rw [if_neg hab]
        rfl

theorem hasDD_tail (a : Char) (l : List Char) (h : hasDD (a :: l) = false) :
    hasDD l = false := by
  rcases l with _ | ⟨b, l'⟩
  · rfl
  · rw [show hasDD (a :: b :: l') = ((a = '-' && b = '-') || hasDD (b :: l')) from rfl,
      Bool.or_eq_false_iff] at h
    exact h.2

theorem collapseHyph_noDD (s : List Char) : hasDD (collapseHyph s) = false := by
  induction s with
  | nil => rfl
  | cons a s ih =>
    rcases s with _ | ⟨b, s'⟩
    · rfl
    · rw [show collapseHyph (a :: b :: s')
          = (if (a = '-' && b = '-') = true then collapseHyph (b :: s')
             else a :: collapseHyph (b :: s')) from rfl]
      by_cases hab : (a = '-' && b = '-') = true
      · rw [if_pos hab]; exact ih
      · rw [if_neg hab]
        rcases hx : collapseHyph (b :: s') with _ | ⟨x, X⟩
        · rfl
        · have hxb : x = b := by
            have := collapseHyph_head (b :: s')
            rw [hx] at this
            simpa using this
          rw [show hasDD (a :: x :: X) = ((a = '-' && x = '-') || hasDD (x :: X)) from rfl,
            Bool.or_eq_false_iff]
          refine ⟨?_, by rw [← hx]; exact ih⟩
          rw [hxb]
          exact Bool.eq_false_iff.mpr hab

theorem collapseHyph_id (s : List Char) (h : hasDD s = false) : collapseHyph s = s := by
  induction s with
  | nil => rfl
  | cons a s ih =>
    rcases s with _ | ⟨b, s'⟩
    · rfl
    · rw [show hasDD (a :: b :: s') = ((a = '-' && b = '-') || hasDD (b :: s')) from rfl,
        Bool.or_eq_false_iff] at h
      rw [show collapseHyph (a :: b :: s')
          = (if (a = '-' && b = '-') = true then collapseHyph (b :: s')
             else a :: collapseHyph (b :: s')) from rfl,
        if_neg (by simp [h.1]), ih h.2]

theorem mem_dropWhile (p : Char → Bool) (l : List Char) (c : Char)
    (h : c ∈ List.dropWhile p l) : c ∈ l := by
  induction l with
  | nil => simp at h
  | cons a l ih =>
    rw [List.dropWhile_cons] at h
    by_cases ha : p a = true
    · rw [if_pos ha] at h
      exact List.mem_cons_of_mem a (ih h)
    · rw [if_neg ha] at h
      exact h

theorem hasDD_dropWhile (p : Char → Bool) (l : List Char) (h : hasDD l = false) :
    hasDD (List.dropWhile p l) = false := by
  induction l with
  | nil => exact h
  | cons a l ih =>
    rw [List.dropWhile_cons]
    by_cases ha : p a = true
    · rw [if_pos ha]
      exact ih (hasDD_tail a l h)
    · rw [if_neg ha]
      exact h

theorem dropTail_chars (p : Char → Bool) (s : List Char) :
    ∀ c ∈ dropTail p s, c ∈ s := by
  induction s with
  | nil => intro c hc; simp [dropTail] at hc
  | cons a s ih =>
    intro c hc
    rw [show dropTail p (a :: s)
        = (match dropTail p s with
           | [] => if p a then [] else [a]
           | t => a :: t) from rfl] at hc
    rcases ht : dropTail p s with _ | ⟨x, X⟩
    · rw [ht] at hc
      by_cases ha : p a = true
      · simp [ha] at hc
      · simp [ha] at hc
        simp [hc]
    · rw [ht] at hc
      rcases List.mem_cons.1 hc with h | h
      · simp [h]
      · exact List.mem_cons_of_mem a (ih c (ht ▸ h))

theorem dropTail_noDD (p : Char → Bool) (s : List Char) (h : hasDD s = false) :
    hasDD (dropTail p s) = false := by
  induction s with
  | nil => exact h
  | cons a s ih =>
    rw [show dropTail p (a :: s)
        = (match dropTail p s with
           | [] => if p a then [] else [a]
           | t => a :: t) from rfl]
    rcases ht : dropTail p s with _ | ⟨x, X⟩
    · by_cases ha : p a = true <;> simp [ha, hasDD]
    · have hdd : hasDD (x :: X) = false := ht ▸ ih (hasDD_tail a s h)
      rcases s with _ | ⟨b, s'⟩
      · simp [dropTail] at ht
      · have hxb : x = b := by
          rcases dropTail_head p b s' with h2 | ⟨t2, h2⟩
          · rw [h2] at ht; cases ht
          · rw [h2] at ht
            exact (List.cons.injEq _ _ _ _ ▸ ht).1.symm
        rw [show hasDD (a :: x :: X) = ((a = '-' && x = '-') || hasDD (x :: X)) from rfl,
          Bool.or_eq_false_iff]
        refine ⟨?_, hdd⟩
        rw [show hasDD (a :: b :: s') = ((a = '-' && b = '-') || hasDD (b :: s')) from rfl,
          Bool.or_eq_false_iff] at h
        rw [hxb]
        exact h.1

theorem dropTail_getLast (p : Char → Bool) (s : List Char) :
    ∀ c, (dropTail p s).getLast? = some c → p c = false := by
  induction s with
  | nil => intro c hc; simp [dropTail] at hc
  | cons a s ih =>
    intro c hc
    rw [show dropTail p (a :: s)
        = (match dropTail p s with
           | [] => if p a then [] else [a]
           | t => a :: t) from rfl] at hc
    rcases ht : dropTail p s with _ | ⟨x, X⟩
    · rw [ht] at hc
      by_cases ha : p a = true
      · simp [ha] at hc
      · simp [ha] at hc
        rw [← hc]
        simpa using ha
    · rw [ht] at hc
      rw [List.getLast?_cons_cons] at hc
      exact ih c (ht ▸ hc)

theorem dropWhile_id_of_head (p : Char → Bool) (s : List Char)
    (h : ∀ c t, s = c :: t → p c = false) : List.dropWhile p s = s := by
  rcases s with _ | ⟨a, t⟩
  · rfl
  · rw [List.dropWhile_cons, if_neg (by simp [h a t rfl])]

theorem dropTail_id_of_last (p : Char → Bool) (s : List Char)
    (h : ∀ c, s.getLast? = some c → p c = false) : dropTail p s = s := by
  induction s with
  | nil => rfl
  | cons a s ih =>
    rw [show dropTail p (a :: s)
        = (match dropTail p s with
           | [] => if p a then [] else [a]
           | t => a :: t) from rfl]
    rcases s with _ | ⟨b, s'⟩
    · simp only [dropTail]
      rw [if_neg (by simp [h a (by rfl)])]
    · rw [ih (fun c hc => h c (by rw [List.getLast?_cons_cons]; exact hc))]

theorem map_lowAlpha_id (s : List Char) (h : ∀ c ∈ s, lowAlpha c = c) :
    s.map lowAlpha = s := by
  induction s with
  | nil => rfl
  | cons a s ih =>
    rw [List.map_cons, h a (by simp), ih (fun c hc => h c (List.mem_cons_of_mem a hc))]

theorem slug_toNat (c : Char) (h : isSlugC c = true ∨ c = '-') :
    (97 ≤ c.toNat ∧ c.toNat ≤ 122) ∨ (48 ≤ c.toNat ∧ c.toNat ≤ 57) ∨
      c.toNat = 95 ∨ c.toNat = 45 := by
  rcases h with h | h
  · simp only [isSlugC, Bool.or_eq_true, Bool.and_eq_true, decide_eq_true_eq] at h
    rcases h with (h | h) | h
    · exact Or.inl h
    · exact Or.inr (Or.inl h)
    · exact Or.inr (Or.inr (Or.inl h))
  · rw [char_eq_iff_toNat, show ('-' : Char).toNat = 45 from rfl] at h
    exact Or.inr (Or.inr (Or.inr h))

theorem lowAlpha_fix (c : Char) (h : isSlugC c = true ∨ c = '-') :
    lowAlpha c = c := by
  unfold lowAlpha
  rw [if_neg]
  simp only [Bool.and_eq_true, decide_eq_true_eq, not_and, not_le]
  intro h65
  rcases slug_toNat c h with h2 | h2 | h2 | h2 <;> omega

theorem isSpaceRe_slug (c : Char) (h : isSlugC c = true ∨ c = '-') :
    isSpaceRe c = false := by
  cases hs : isSpaceRe c
  · rfl
  · exfalso
    simp only [isSpaceRe, Bool.or_eq_true, decide_eq_true_eq] at hs
    rcases slug_toNat c h with h2 | h2 | h2 | h2 <;>
      rcases hs with ((((hs | hs) | hs) | hs) | hs) | hs <;> omega

theorem slug_word (c : Char) (h : isSlugC c = true ∨ c = '-') :
    (isWordC c || c = '-') = true := by
  rcases h with h | h
  · simp only [isSlugC, Bool.or_eq_true, Bool.and_eq_true, decide_eq_true_eq] at h
    simp only [isWordC, Bool.or_eq_true, Bool.and_eq_true, decide_eq_true_eq]
    rcases h with (h | h) | h
    · exact Or.inl (Or.inl (Or.inr h))
    · exact Or.inl (Or.inl (Or.inl (Or.inl h)))
    · exact Or.inl (Or.inr h)
  · simp only [Bool.or_eq_true, decide_eq_true_eq]
    exact Or.inr h

theorem slug_char_class (c : Char) (hw : (isWordC c || c = '-') = true)
    (him : c = '-' ∨ ∃ d, lowAlpha d = c) : isSlugC c = true ∨ c = '-' := by
  rcases him with h | ⟨d, hd⟩
  · exact Or.inr h
  · simp only [Bool.or_eq_true, decide_eq_true_eq] at hw
    rcases hw with hw | hw
    · left
      have hnu := lowAlpha_not_upper d
      rw [hd] at hnu
      simp only [isWordC, Bool.or_eq_true, Bool.and_eq_true, decide_eq_true_eq] at hw
      simp only [isSlugC, Bool.or_eq_true, Bool.and_eq_true, decide_eq_true_eq]
      simp only [not_and, not_le] at hnu
      rcases hw with ((hw | hw) | hw) | hw
      · exact Or.inl (Or.inr hw)
      · exact absurd hw.2 (by have := hnu hw.1; omega)
      · exact Or.inl (Or.inl hw)
      · exact Or.inr hw
    · exact Or.inr hw

theorem slugify_ok (s : List Char) : SlugOK (slugify s) := by
  unfold slugify SlugOK
  refine ⟨?_, ?_, ?_, ?_⟩
  · intro c hc
    have h1 := dropTail_chars (fun c => c = '-') _ c hc
    have h2 := mem_dropWhile (fun c => c = '-') _ c h1
    have h3 := collapseHyph_chars _ c h2
    have h4 := List.mem_filter.1 h3
    have h5 := collapseWs_chars _ c h4.1
    refine slug_char_class c (by simpa using h4.2) ?_
    rcases h5 with h | h
    · exact Or.inl h
    · obtain ⟨d, _, hd⟩ := List.mem_map.1 h
      exact Or.inr ⟨d, hd⟩
  · exact dropTail_noDD _ _ (hasDD_dropWhile _ _ (collapseHyph_noDD _))
  · intro c t hct
    rcases hw : List.dropWhile (fun c => c = '-')
        (collapseHyph (List.filter (fun c => isWordC c || c = '-')
          (collapseWs (s.map lowAlpha)))) with _ | ⟨c0, w'⟩
    · rw [hw] at hct
      simp [dropTail] at hct
    · have hc0 := dropWhile_head_neg (fun c => decide (c = '-')) _ c0 w' hw
      rw [hw] at hct
      rcases dropTail_head (fun c => c = '-') c0 w' with h2 | ⟨t2, h2⟩
      · rw [h2] at hct
        cases hct
      · rw [h2] at hct
        injection hct with h3 h4
        rw [← h3]
        simpa using hc0
  · intro c hc
    have := dropTail_getLast (fun c => c = '-') _ c hc
    simpa using this

theorem slugify_fix (s : List Char) (h : SlugOK s) : slugify s = s := by
  obtain ⟨hchar, hdd, hhead, hlast⟩ := h
  unfold slugify
  rw [map_lowAlpha_id s (fun c hc => lowAlpha_fix c (hchar c hc)),
    collapseWs_id s (fun c hc => isSpaceRe_slug c (hchar c hc)),
    List.filter_eq_self.2 (fun c hc => slug_word c (hchar c hc)),
    collapseHyph_id s hdd,
    dropWhile_id_of_head _ s (fun c t hct => by simp [hhead c t hct]),
    dropTail_id_of_last _ s (fun c hc => by simp [hlast c hc])]

/-- Claim C10: `slugify` is idempotent — applying it to its own output
changes nothing — and every output consists only of lowercase word
characters (lowercase letters, digits, underscore) and single interior
hyphens, with no double hyphen and no leading or trailing hyphen. -/
theorem slugify_idempotent (s : List Char) :
    slugify (slugify s) = slugify s ∧ SlugOK (slugify s) :=
  ⟨slugify_fix (slugify s) (slugify_ok s), slugify_ok s⟩

theorem parseVal_null (f : Nat) (cs : List Char) :
    parseVal (f + 1) ('n' :: 'u' :: 'l' :: 'l' :: cs) = some (.null, cs) := rfl

theorem parseVal_true (f : Nat) (cs : List Char) :
    parseVal (f + 1) ('t' :: 'r' :: 'u' :: 'e' :: cs) = some (.bool true, cs) := rfl

theorem parseVal_false (f : Nat) (cs : List Char) :
    parseVal (f + 1) ('f' :: 'a' :: 'l' :: 's' :: 'e' :: cs) = some (.bool false, cs) := rfl

theorem parseVal_str (f : Nat) (cs : List Char) :
    parseVal (f + 1) ('"' :: cs) =
      match parseStrBody cs with
      | some (t, r) => some (.str t, r)
      | none => none := rfl

theorem parseVal_arr (f : Nat) (cs : List Char) :
    parseVal (f + 1) ('[' :: cs) =
      match skipWs cs with
      | [] => none
      | c2 :: cs2 =>
        if c2 = ']' then some (.arr [], cs2)
        else
          match parseItems f (c2 :: cs2) with
          | some (vs, r) => some (.arr vs, r)
          | none => none := rfl

theorem parseVal_obj (f : Nat) (cs : List Char) :
    parseVal (f + 1) (lcurl :: cs) =
      match skipWs cs with
      | c2 :: cs2 =>
        if c2 = rcurl then some (.obj [], cs2)
        else
          match parseFields f (c2 :: cs2) with
          | some (fs, r) => some (.obj fs, r)
          | none => none
      | [] => none := rfl

theorem parseVal_neg (f : Nat) (d : Char) (cs : List Char) (hd : isDigitC d = true) :
    parseVal (f + 1) ('-' :: d :: cs) =
      (if d = '0' then some (.num 0, cs)
       else
        match parseDigitsAcc 0 (d :: cs) with
        | (m, r) => some (.num (-(m : Int)), r)) := by
  rw [show parseVal (f + 1) ('-' :: d :: cs) =
    (if isDigitC d then
      (if d = '0' then some (.num 0, cs)
       else
        match parseDigitsAcc 0 (d :: cs) with
        | (m, r) => some (.num (-(m : Int)), r))
     else none) from rfl, if_pos hd]

theorem skipWs_cons_nonws (c : Char) (s : List Char) (h : isWsC c = false) :
    skipWs (c :: s) = c :: s := by
  simp [skipWs, List.dropWhile_cons, h]

theorem skipWs_spaces (n : Nat) (t : List Char) :
    skipWs (spacesN n ++ t) = skipWs t := by
  induction n with
  | zero => rfl
  | succ m ih =>
    show skipWs (' ' :: (spacesN m ++ t)) = skipWs t
    rw [show skipWs (' ' :: (spacesN m ++ t)) = skipWs (spacesN m ++ t) from rfl, ih]

theorem skipWs_nl_spaces (n : Nat) (t : List Char) :
    skipWs ('\n' :: (spacesN n ++ t)) = skipWs t := by
  rw [show skipWs ('\n' :: (spacesN n ++ t)) = skipWs (spacesN n ++ t) from rfl,
    skipWs_spaces]

theorem parseVal_congr (f : Nat) (s s2 : List Char) (h : skipWs s = skipWs s2) :
    parseVal f s = parseVal f s2 := by
  cases f with
  | zero => rfl
  | succ g => simp only [parseVal, h]

theorem parseItems_congr (f : Nat) (s s2 : List Char) (h : skipWs s = skipWs s2) :
    parseItems f s = parseItems f s2 := by
  cases f with
  | zero => rfl
  | succ g => simp only [parseItems, parseVal_congr g s s2 h]

theorem parseFields_congr (f : Nat) (s s2 : List Char) (h : skipWs s = skipWs s2) :
    parseFields f s = parseFields f s2 := by
  cases f with
  | zero => rfl
  | succ g => simp only [parseFields, h]

theorem digit_toNat (c : Char) (h : isDigitC c = true) :
    48 ≤ c.toNat ∧ c.toNat ≤ 57 := by
  simpa [isDigitC] using h

theorem digit_not_ws (c : Char) (h : isDigitC c = true) : isWsC c = false := by
  obtain ⟨h1, h2⟩ := digit_toNat c h
  cases hw : isWsC c
  · rfl
  · exfalso
    simp only [isWsC, Bool.or_eq_true, decide_eq_true_eq, char_eq_iff_toNat] at hw
    rcases hw with ((hw | hw) | hw) | hw <;> simp at hw <;> omega

theorem digit_ne (c : Char) (h : isDigitC c = true) (d : Char)
    (hd : d.toNat < 48 ∨ 57 < d.toNat) : ¬c = d := by
  obtain ⟨h1, h2⟩ := digit_toNat c h
  rw [char_eq_iff_toNat]
  omega

theorem isDigitC_digitChar (k : Nat) : isDigitC (digitChar k) = true := by
  unfold digitChar
  split <;> rfl

theorem digitVal_digitChar (k : Nat) (h : k < 10) : digitVal (digitChar k) = k := by
  interval_cases k <;> rfl

theorem digitChar_ne_zero (k : Nat) (h1 : 1 ≤ k) (h2 : k < 10) : ¬digitChar k = '0' := by
  interval_cases k <;> decide

theorem natCharsAux_unfuel (n : Nat) : ∀ (f : Nat) (acc : List Char),
    n < f → natCharsAux f n acc = natChars n ++ acc := by
  induction n using Nat.strong_induction_on with
  | _ n ih =>
    intro f acc hf
    match f, hf with
    | ff + 1, hf =>
      by_cases h10 : n < 10
      · rw [show natCharsAux (ff + 1) n acc
            = (if n < 10 then digitChar n :: acc
               else natCharsAux ff (n / 10) (digitChar (n % 10) :: acc)) from rfl,
          if_pos h10,
          show natChars n = natCharsAux (n + 1) n [] from rfl,
          show natCharsAux (n + 1) n []
            = (if n < 10 then digitChar n :: ([] : List Char)
               else natCharsAux n (n / 10) (digitChar (n % 10) :: [])) from rfl,
          if_pos h10]
        rfl
      · have hpos : 0 < n := by omega
        have hdiv : n / 10 < n := Nat.div_lt_self hpos (by omega)
        rw [show natCharsAux (ff + 1) n acc
            = (if n < 10 then digitChar n :: acc
               else natCharsAux ff (n / 10) (digitChar (n % 10) :: acc)) from rfl,
          if_neg h10,
          show natChars n = natCharsAux (n + 1) n [] from rfl,
          show natCharsAux (n + 1) n []
            = (if n < 10 then digitChar n :: ([] : List Char)
               else natCharsAux n (n / 10) (digitChar (n % 10) :: [])) from rfl,
          if_neg h10,
          ih (n / 10) hdiv ff (digitChar (n % 10) :: acc) (by omega),
          ih (n / 10) hdiv n (digitChar (n % 10) :: []) hdiv]
        simp

theorem natChars_small (n : Nat) (h : n < 10) : natChars n = [digitChar n] := by
  rw [show natChars n = natCharsAux (n + 1) n [] from rfl,
    show natCharsAux (n + 1) n []
      = (if n < 10 then digitChar n :: ([] : List Char)
         else natCharsAux n (n / 10) (digitChar (n % 10) :: [])) from rfl,
    if_pos h]

theorem natChars_big (n : Nat) (h : 10 ≤ n) :
    natChars n = natChars (n / 10) ++ [digitChar (n % 10)] := by
  have hdiv : n / 10 < n := Nat.div_lt_self (by omega) (by omega)
  rw [show natChars n = natCharsAux (n + 1) n [] from rfl,
    show natCharsAux (n + 1) n []
      = (if n < 10 then digitChar n :: ([] : List Char)
         else natCharsAux n (n / 10) (digitChar (n % 10) :: [])) from rfl,
    if_neg (by omega), natCharsAux_unfuel (n / 10) n (digitChar (n % 10) :: []) hdiv]

theorem natChars_digits (n : Nat) : ∀ c ∈ natChars n, isDigitC c = true := by
  induction n using Nat.strong_induction_on with
  | _ n ih =>
    by_cases h10 : n < 10
    · rw [natChars_small n h10]
      intro c hc
      rw [List.mem_singleton] at hc
      rw [hc]
      exact isDigitC_digitChar n
    · rw [natChars_big n (by omega)]
      intro c hc
      rcases List.mem_append.mp hc with hc | hc
      · exact ih (n / 10) (Nat.div_lt_self (by omega) (by omega)) c hc
      · rw [List.mem_singleton] at hc
        rw [hc]
        exact isDigitC_digitChar (n % 10)

theorem natChars_head (n : Nat) : ∃ d t, natChars n = d :: t := by
  induction n using Nat.strong_induction_on with
  | _ n ih =>
    by_cases h10 : n < 10
    · exact ⟨digitChar n, [], natChars_small n h10⟩
    · obtain ⟨d, t, hdt⟩ := ih (n / 10) (Nat.div_lt_self (by omega) (by omega))
      exact ⟨d, t ++ [digitChar (n % 10)], by rw [natChars_big n (by omega), hdt]; rfl⟩

theorem natChars_pos_head (n : Nat) (h : 0 < n) :
    ∃ d t, natChars n = d :: t ∧ ¬d = '0' := by
  induction n using Nat.strong_induction_on with
  | _ n ih =>
    by_cases h10 : n < 10
    · exact ⟨digitChar n, [], natChars_small n h10, digitChar_ne_zero n h h10⟩
    · obtain ⟨d, t, hdt, hd0⟩ := ih (n / 10) (Nat.div_lt_self (by omega) (by omega))
        (Nat.div_pos (by omega) (by omega))
      exact ⟨d, t ++ [digitChar (n % 10)],
        by rw [natChars_big n (by omega), hdt]; rfl, hd0⟩

theorem pda_digits (ds : List Char) : ∀ (a : Nat) (rest : List Char),
    (∀ c ∈ ds, isDigitC c = true) →
    parseDigitsAcc a (ds ++ rest)
      = parseDigitsAcc (ds.foldl (fun acc c => 10 * acc + digitVal c) a) rest := by
  induction ds with
  | nil => intro a rest _; rfl
  | cons c ds ih =>
    intro a rest h
    rw [List.cons_append,
      show parseDigitsAcc a (c :: (ds ++ rest))
        = (if isDigitC c then parseDigitsAcc (10 * a + digitVal c) (ds ++ rest)
           else (a, c :: (ds ++ rest))) from rfl,
      if_pos (h c (by simp)), ih (10 * a + digitVal c) rest
        (fun x hx => h x (List.mem_cons_of_mem c hx))]
    rfl

theorem pda_stop (a : Nat) (rest : List Char)
    (h : ∀ c cs, rest = c :: cs → isDigitC c = false) :
    parseDigitsAcc a rest = (a, rest) := by
  rcases rest with _ | ⟨c, cs⟩
  · rfl
  · rw [show parseDigitsAcc a (c :: cs)
        = (if isDigitC c then parseDigitsAcc (10 * a + digitVal c) cs
           else (a, c :: cs)) from rfl,
      if_neg (by simp [h c cs rfl])]

theorem fold_natChars (n : Nat) : ∀ a : Nat,
    (natChars n).foldl (fun acc c => 10 * acc + digitVal c) a
      = a * 10 ^ (natChars n).length + n := by
  induction n using Nat.strong_induction_on with
  | _ n ih =>
    intro a
    by_cases h10 : n < 10
    · rw [natChars_small n h10]
      simp [digitVal_digitChar n h10]
      ring
    · rw [natChars_big n (by omega), List.foldl_append,
        ih (n / 10) (Nat.div_lt_self (by omega) (by omega)) a]
      simp [digitVal_digitChar (n % 10) (Nat.mod_lt n (by omega))]
      rw [pow_succ]
      have := Nat.div_add_mod n 10
      ring_nf
      omega

theorem parseDigits_natChars (n : Nat) (rest : List Char)
    (hrest : ∀ c cs, rest = c :: cs → isDigitC c = false) :
    parseDigitsAcc 0 (natChars n ++ rest) = (n, rest) := by
  rw [pda_digits (natChars n) 0 rest (natChars_digits n), fold_natChars n 0,
    pda_stop _ rest hrest]
  simp

theorem parseVal_unfold (f : Nat) (s : List Char) :
    parseVal (f + 1) s =
      (match skipWs s with
       | [] => none
       | c :: cs =>
         if c = 'n' then
           match cs with
           | 'u' :: 'l' :: 'l' :: cs2 => some (.null, cs2)
           | _ => none
         else if c = 't' then
           match cs with
           | 'r' :: 'u' :: 'e' :: cs2 => some (.bool true, cs2)
           | _ => none
         else if c = 'f' then
           match cs with
           | 'a' :: 'l' :: 's' :: 'e' :: cs2 => some (.bool false, cs2)
           | _ => none
         else if c = '"' then
           match parseStrBody cs with
           | some (t, r) => some (.str t, r)
           | none => none
         else if c = '-' then
           match cs with
           | d :: cs2 =>
             if isDigitC d then
               if d = '0' then some (.num 0, cs2)
               else
                 match parseDigitsAcc 0 (d :: cs2) with
                 | (m, r) => some (.num (-(m : Int)), r)
             else none
           | [] => none
         else if isDigitC c then
           if c = '0' then some (.num 0, cs)
           else
             match parseDigitsAcc 0 (c :: cs) with
             | (m, r) => some (.num ((m : Int)), r)
         else if c = '[' then
           match skipWs cs with
           | [] => none
           | c2 :: cs2 =>
             if c2 = ']' then some (.arr [], cs2)
             else
               match parseItems f (c2 :: cs2) with
               | some (vs, r) => some (.arr vs, r)
               | none => none
         else if c = lcurl then
           match skipWs cs with
           | c2 :: cs2 =>
             if c2 = rcurl then some (.obj [], cs2)
             else
               match parseFields f (c2 :: cs2) with
               | some (fs, r) => some (.obj fs, r)
               | none => none
           | [] => none
         else none) := by
  rw [parseVal.eq_def]

theorem parseVal_head (f : Nat) (c : Char) (cs : List Char) (h : isWsC c = false) :
    parseVal (f + 1) (c :: cs) =
      (if c = 'n' then
        match cs with
        | 'u' :: 'l' :: 'l' :: cs2 => some (.null, cs2)
        | _ => none
      else if c = 't' then
        match cs with
        | 'r' :: 'u' :: 'e' :: cs2 => some (.bool true, cs2)
        | _ => none
      else if c = 'f' then
        match cs with
        | 'a' :: 'l' :: 's' :: 'e' :: cs2 => some (.bool false, cs2)
        | _ => none
      else if c = '"' then
        match parseStrBody cs with
        | some (t, r) => some (.str t, r)
        | none => none
      else if c = '-' then
        match cs with
        | d :: cs2 =>
          if isDigitC d then
            if d = '0' then some (.num 0, cs2)
            else
              match parseDigitsAcc 0 (d :: cs2) with
              | (m, r) => some (.num (-(m : Int)), r)
          else none
        | [] => none
      else if isDigitC c then
        if c = '0' then some (.num 0, cs)
        else
          match parseDigitsAcc 0 (c :: cs) with
          | (m, r) => some (.num ((m : Int)), r)
      else if c = '[' then
        match skipWs cs with
        | [] => none
        | c2 :: cs2 =>
          if c2 = ']' then some (.arr [], cs2)
          else
            match parseItems f (c2 :: cs2) with
            | some (vs, r) => some (.arr vs, r)
            | none => none
      else if c = lcurl then
        match skipWs cs with
        | c2 :: cs2 =>
          if c2 = rcurl then some (.obj [], cs2)
          else
            match parseFields f (c2 :: cs2) with
            | some (fs, r) => some (.obj fs, r)
            | none => none
        | [] => none
      else none) := by
  rw [parseVal_unfold, skipWs_cons_nonws c cs h]

theorem parseVal_digit (f : Nat) (d : Char) (cs : List Char)
    (hd : isDigitC d = true) (h0 : ¬d = '0') :
    parseVal (f + 1) (d :: cs) =
      (match parseDigitsAcc 0 (d :: cs) with
       | (m, r) => some (.num (m : Int), r)) := by
  have h1 : ¬d = 'n' := digit_ne d hd 'n' (by decide)
  have h2 : ¬d = 't' := digit_ne d hd 't' (by decide)
  have h3 : ¬d = 'f' := digit_ne d hd 'f' (by decide)
  have h4 : ¬d = '"' := digit_ne d hd '"' (by decide)
  have h5 : ¬d = '-' := digit_ne d hd '-' (by decide)
  rw [parseVal_head f d cs (digit_not_ws d hd), if_neg h1, if_neg h2, if_neg h3,
    if_neg h4, if_neg h5, if_pos hd, if_neg h0]

theorem hexVal_hexDigitChar (k : Nat) (h : k < 16) :
    hexVal (hexDigitChar k) = some k := by
  interval_cases k <;> rfl

theorem psb_cons (c : Char) (cs : List Char) :
    parseStrBody (c :: cs) =
      (if c = '"' then some ([], cs)
       else if c = '\\' then
        match cs with
        | [] => none
        | e :: cs2 =>
          if e = 'u' then
            match cs2 with
            | h1 :: h2 :: h3 :: h4 :: cs3 =>
              match hexVal h1, hexVal h2, hexVal h3, hexVal h4 with
              | some a, some b, some c3, some d =>
                let n := ((a * 16 + b) * 16 + c3) * 16 + d
                if n < 55296 then
                  match parseStrBody cs3 with
                  | some (t, r) => some (Char.ofNat n :: t, r)
                  | none => none
                else none
              | _, _, _, _ => none
            | _ => none
          else
            match escDecode e with
            | some d =>
              match parseStrBody cs2 with
              | some (t, r) => some (d :: t, r)
              | none => none
            | none => none
       else if c.toNat < 32 then none
       else
        match parseStrBody cs with
        | some (t, r) => some (c :: t, r)
        | none => none) := by
  rw [parseStrBody.eq_def]

theorem psb_verbatim (c : Char) (cs : List Char) (hq : ¬c = '"') (hb : ¬c = '\\')
    (hctl : ¬c.toNat < 32) :
    parseStrBody (c :: cs) =
      (match parseStrBody cs with
       | some (t, r) => some (c :: t, r)
       | none => none) := by
  rw [psb_cons, if_neg hq, if_neg hb, if_neg hctl]

theorem escapeStr_cons (c : Char) (s : List Char) :
    escapeStr (c :: s) = escapeChar c ++ escapeStr s := by
  simp [escapeStr]

theorem parseStrBody_escape (sc : List Char) : ∀ rest : List Char,
    parseStrBody (escapeStr sc ++ '"' :: rest) = some (sc, rest) := by
  induction sc with
  | nil =>
    intro rest
    rw [show escapeStr [] ++ '"' :: rest = '"' :: rest from rfl, psb_cons]
    rfl
  | cons c sc ih =>
    intro rest
    rw [escapeStr_cons, List.append_assoc]
    by_cases hq : c = '"'
    · subst hq
      rw [show escapeChar '"' ++ (escapeStr sc ++ '"' :: rest)
          = '\\' :: '"' :: (escapeStr sc ++ '"' :: rest) from rfl, psb_cons]
      show (match parseStrBody (escapeStr sc ++ '"' :: rest) with
            | some (t, r) => some ('"' :: t, r)
            | none => none) = some ('"' :: sc, rest)
      rw [ih rest]
    · by_cases hb : c = '\\'
      · subst hb
        rw [show escapeChar '\\' ++ (escapeStr sc ++ '"' :: rest)
            = '\\' :: '\\' :: (escapeStr sc ++ '"' :: rest) from rfl, psb_cons]
        show (match parseStrBody (escapeStr sc ++ '"' :: rest) with
              | some (t, r) => some ('\\' :: t, r)
              | none => none) = some ('\\' :: sc, rest)
        rw [ih rest]
      · by_cases hn : c = '\n'
        · subst hn
          rw [show escapeChar '\n' ++ (escapeStr sc ++ '"' :: rest)
              = '\\' :: 'n' :: (escapeStr sc ++ '"' :: rest) from rfl, psb_cons]
          show (match parseStrBody (escapeStr sc ++ '"' :: rest) with
                | some (t, r) => some ('\n' :: t, r)
                | none => none) = some ('\n' :: sc, rest)
          rw [ih rest]
        · by_cases hr : c = '\r'
          · subst hr
            rw [show escapeChar '\r' ++ (escapeStr sc ++ '"' :: rest)
                = '\\' :: 'r' :: (escapeStr sc ++ '"' :: rest) from rfl, psb_cons]
            show (match parseStrBody (escapeStr sc ++ '"' :: rest) with
                  | some (t, r) => some ('\r' :: t, r)
                  | none => none) = some ('\r' :: sc, rest)
            rw [ih rest]
          · by_cases ht : c = '\t'
            · subst ht
              rw [show escapeChar '\t' ++ (escapeStr sc ++ '"' :: rest)
                  = '\\' :: 't' :: (escapeStr sc ++ '"' :: rest) from rfl, psb_cons]
              show (match parseStrBody (escapeStr sc ++ '"' :: rest) with
                    | some (t, r) => some ('\t' :: t, r)
                    | none => none) = some ('\t' :: sc, rest)
              rw [ih rest]
            · by_cases h8 : c.toNat = 8
              · have hc8 : c = Char.ofNat 8 := by
                  rw [char_eq_iff_toNat, h8, toNat_ofNat_small 8 (by omega)]
                subst hc8
                rw [show escapeChar (Char.ofNat 8) ++ (escapeStr sc ++ '"' :: rest)
                    = '\\' :: 'b' :: (escapeStr sc ++ '"' :: rest) from rfl, psb_cons]
                show (match parseStrBody (escapeStr sc ++ '"' :: rest) with
                      | some (t, r) => some (Char.ofNat 8 :: t, r)
                      | none => none) = some (Char.ofNat 8 :: sc, rest)
                rw [ih rest]
              · by_cases h12 : c.toNat = 12
                · have hc12 : c = Char.ofNat 12 := by
                    rw [char_eq_iff_toNat, h12, toNat_ofNat_small 12 (by omega)]
                  subst hc12
                  rw [show escapeChar (Char.ofNat 12) ++ (escapeStr sc ++ '"' :: rest)
                      = '\\' :: 'f' :: (escapeStr sc ++ '"' :: rest) from rfl, psb_cons]
                  show (match parseStrBody (escapeStr sc ++ '"' :: rest) with
                        | some (t, r) => some (Char.ofNat 12 :: t, r)
                        | none => none) = some (Char.ofNat 12 :: sc, rest)
                  rw [ih rest]
                · by_cases hctl : c.toNat < 32
                  · rw [show escapeChar c
                        = (if c = '"' then ['\\', '"']
                           else if c = '\\' then ['\\', '\\']
                           else if c = '\n' then ['\\', 'n']
                           else if c = '\r' then ['\\', 'r']
                           else if c = '\t' then ['\\', 't']
                           else if c.toNat = 8 then ['\\', 'b']
                           else if c.toNat = 12 then ['\\', 'f']
                           else if c.toNat < 32 then
                             ['\\', 'u', '0', '0', hexDigitChar (c.toNat / 16),
                               hexDigitChar (c.toNat % 16)]
                           else [c]) from rfl,
                      if_neg hq, if_neg hb, if_neg hn, if_neg hr, if_neg ht,
                      if_neg h8, if_neg h12, if_pos hctl,
                      show ['\\', 'u', '0', '0', hexDigitChar (c.toNat / 16),
                          hexDigitChar (c.toNat % 16)] ++ (escapeStr sc ++ '"' :: rest)
                        = '\\' :: 'u' :: '0' :: '0' :: hexDigitChar (c.toNat / 16)
                          :: hexDigitChar (c.toNat % 16)
                          :: (escapeStr sc ++ '"' :: rest) from rfl, psb_cons]
                    show (match hexVal '0', hexVal '0',
                          hexVal (hexDigitChar (c.toNat / 16)),
                          hexVal (hexDigitChar (c.toNat % 16)) with
                        | some a, some b, some c3, some d =>
                          let n := ((a * 16 + b) * 16 + c3) * 16 + d
                          if n < 55296 then
                            match parseStrBody (escapeStr sc ++ '"' :: rest) with
                            | some (t, r) => some (Char.ofNat n :: t, r)
                            | none => none
                          else none
                        | _, _, _, _ => none)
                      = some (c :: sc, rest)
                    rw [show hexVal '0' = some 0 from rfl,
                      hexVal_hexDigitChar (c.toNat / 16) (by omega),
                      hexVal_hexDigitChar (c.toNat % 16) (Nat.mod_lt _ (by omega))]
                    show (let n := ((0 * 16 + 0) * 16 + c.toNat / 16) * 16 + c.toNat % 16
                          if n < 55296 then
                            match parseStrBody (escapeStr sc ++ '"' :: rest) with
                            | some (t, r) => some (Char.ofNat n :: t, r)
                            | none => none
                          else none)
                      = some (c :: sc, rest)
                    have hn32 : ((0 * 16 + 0) * 16 + c.toNat / 16) * 16 + c.toNat % 16
                        = c.toNat := by
                      have := Nat.div_add_mod c.toNat 16
                      omega
                    simp only [hn32]
                    rw [if_pos (by omega : c.toNat < 55296), ih rest,
                      Char.ofNat_toNat]
                  · rw [show escapeChar c
                        = (if c = '"' then ['\\', '"']
                           else if c = '\\' then ['\\', '\\']
                           else if c = '\n' then ['\\', 'n']
                           else if c = '\r' then ['\\', 'r']
                           else if c = '\t' then ['\\', 't']
                           else if c.toNat = 8 then ['\\', 'b']
                           else if c.toNat = 12 then ['\\', 'f']
                           else if c.toNat < 32 then
                             ['\\', 'u', '0', '0', hexDigitChar (c.toNat / 16),
                               hexDigitChar (c.toNat % 16)]
                           else [c]) from rfl,
                      if_neg hq, if_neg hb, if_neg hn, if_neg hr, if_neg ht,
                      if_neg h8, if_neg h12, if_neg hctl, List.cons_append,
                      List.nil_append,
                      psb_verbatim c (escapeStr sc ++ '"' :: rest) hq hb hctl,
                      ih rest]

theorem natChars_last (n : Nat) : ∃ u, natChars n = u ++ [digitChar (n % 10)] := by
  by_cases h10 : n < 10
  · exact ⟨[], by rw [natChars_small n h10, Nat.mod_eq_of_lt h10]; rfl⟩
  · exact ⟨natChars (n / 10), natChars_big n (by omega)⟩

theorem printVal_head (ind : Nat) (v : JValue) :
    ∃ c t, printVal ind v = c :: t ∧ isWsC c = false ∧ ¬c = ']' ∧ ¬c = rcurl := by
  cases v with
  | null => exact ⟨'n', _, rfl, by decide, by decide, by decide⟩
  | bool b =>
    cases b
    · exact ⟨'f', _, rfl, by decide, by decide, by decide⟩
    · exact ⟨'t', _, rfl, by decide, by decide, by decide⟩
  | num i =>
    cases i with
    | ofNat n =>
      obtain ⟨d, t, hdt⟩ := natChars_head n
      have hd : isDigitC d = true := natChars_digits n d (by rw [hdt]; simp)
      exact ⟨d, t, by rw [show printVal ind (.num (.ofNat n)) = natChars n from rfl, hdt],
        digit_not_ws d hd, digit_ne d hd ']' (by decide), digit_ne d hd rcurl (by decide)⟩
    | negSucc m => exact ⟨'-', _, rfl, by decide, by decide, by decide⟩
  | str s => exact ⟨'"', _, rfl, by decide, by decide, by decide⟩
  | arr xs =>
    cases xs with
    | nil => exact ⟨'[', _, rfl, by decide, by decide, by decide⟩
    | cons x xs => exact ⟨'[', _, rfl, by decide, by decide, by decide⟩
  | obj fs =>
    cases fs with
    | nil => exact ⟨lcurl, _, rfl, by decide, by decide, by decide⟩
    | cons g fs => exact ⟨lcurl, _, rfl, by decide, by decide, by decide⟩

theorem printVal_last (ind : Nat) (v : JValue) :
    ∃ t c, printVal ind v = t ++ [c] ∧ isWsC c = false := by
  cases v with
  | null => exact ⟨['n', 'u', 'l'], 'l', rfl, by decide⟩
  | bool b =>
    cases b
    · exact ⟨['f', 'a', 'l', 's'], 'e', rfl, by decide⟩
    · exact ⟨['t', 'r', 'u'], 'e', rfl, by decide⟩
  | num i =>
    cases i with
    | ofNat n =>
      obtain ⟨u, hu⟩ := natChars_last n
      exact ⟨u, digitChar (n % 10),
        by rw [show printVal ind (.num (.ofNat n)) = natChars n from rfl, hu],
        digit_not_ws _ (isDigitC_digitChar (n % 10))⟩
    | negSucc m =>
      obtain ⟨u, hu⟩ := natChars_last (m + 1)
      exact ⟨'-' :: u, digitChar ((m + 1) % 10),
        by rw [show printVal ind (.num (.negSucc m)) = '-' :: natChars (m + 1) from rfl,
          hu, List.cons_append],
        digit_not_ws _ (isDigitC_digitChar ((m + 1) % 10))⟩
  | str s =>
    exact ⟨'"' :: escapeStr s, '"',
      by rw [show printVal ind (.str s) = '"' :: (escapeStr s ++ ['"']) from rfl,
        List.cons_append], by decide⟩
  | arr xs =>
    cases xs with
    | nil => exact ⟨['['], ']', rfl, by decide⟩
    | cons x xs =>
      refine ⟨'[' :: '\n' :: (spacesN (ind + 2) ++ printItems (ind + 2) (x :: xs)
        ++ '\n' :: spacesN ind), ']', ?_, by decide⟩
      simp [printVal, List.append_assoc]
  | obj fs =>
    cases fs with
    | nil => exact ⟨[lcurl], rcurl, rfl, by decide⟩
    | cons g fs =>
      refine ⟨lcurl :: '\n' :: (spacesN (ind + 2) ++ printFields (ind + 2) (g :: fs)
        ++ '\n' :: spacesN ind), rcurl, ?_, by decide⟩
      simp [printVal, List.append_assoc]

theorem trimC_stringify (v : JValue) : trimC (stringify v) = stringify v := by
  obtain ⟨c, t, hct, hws, h1, h2⟩ := printVal_head 0 v
  obtain ⟨u, c2, huc, hws2⟩ := printVal_last 0 v
  show dropTail isWsC ((printVal 0 v).dropWhile isWsC) = printVal 0 v
  rw [dropWhile_id_of_head isWsC (printVal 0 v)
    (fun c' t' h => by rw [hct] at h; injection h with e1 e2; rw [← e1]; exact hws)]
  exact dropTail_id_of_last isWsC (printVal 0 v)
    (fun c' hc => by
      rw [huc, List.getLast?_concat] at hc
      injection hc with e
      rw [← e]
      exact hws2)

mutual

theorem fuelBound1 (v : JValue) : ∀ ind : Nat, fuelFor v ≤ (printVal ind v).length := by
  intro ind
  cases v with
  | null => simp [fuelFor, printVal]
  | bool b => cases b <;> simp [fuelFor, printVal]
  | num i =>
    obtain ⟨c, t, hct, _, _, _⟩ := printVal_head ind (.num i)
    rw [show fuelFor (.num i) = 1 from rfl, hct]
    simp
  | str s =>
    rw [show fuelFor (.str s) = 1 from rfl]
    simp [printVal]
  | arr xs =>
    cases xs with
    | nil => simp [fuelFor, printVal]
    | cons x xs =>
      rw [show fuelFor (.arr (x :: xs)) = itemsFuel (x :: xs) + 1 from rfl]
      have hb := fuelBound2 (x :: xs) (ind + 2)
      simp only [printVal, List.length_cons, List.length_append, List.cons_append]
      omega
  | obj fs =>
    cases fs with
    | nil => simp [fuelFor, printVal]
    | cons g fs =>
      rw [show fuelFor (.obj (g :: fs)) = fieldsFuel (g :: fs) + 1 from rfl]
      have hb := fuelBound3 (g :: fs) (ind + 2)
      simp only [printVal, List.length_cons, List.length_append, List.cons_append]
      omega

theorem fuelBound2 (xs : List JValue) : ∀ ind : Nat,
    itemsFuel xs ≤ (printItems ind xs).length + 1 := by
  intro ind
  cases xs with
  | nil => simp [itemsFuel, printItems]
  | cons x xs =>
    rw [show itemsFuel (x :: xs) = max (fuelFor x) (itemsFuel xs) + 1 from rfl]
    have h1 := fuelBound1 x ind
    cases xs with
    | nil =>
      rw [show printItems ind [x] = printVal ind x from rfl,
        show itemsFuel ([] : List JValue) = 1 from rfl]
      have hpos : 1 ≤ (printVal ind x).length := by
        obtain ⟨c, t, hct, _, _, _⟩ := printVal_head ind x
        rw [hct]; simp
      omega
    | cons y ys =>
      have h2 := fuelBound2 (y :: ys) ind
      rw [show printItems ind (x :: y :: ys)
          = printVal ind x ++ ',' :: '\n' :: spacesN ind ++ printItems ind (y :: ys)
        from rfl]
      simp only [List.length_append, List.length_cons]
      omega

theorem fuelBound3 (fs : List (List Char × JValue)) : ∀ ind : Nat,
    fieldsFuel fs ≤ (printFields ind fs).length + 1 := by
  intro ind
  cases fs with
  | nil => simp [fieldsFuel, printFields]
  | cons g fs =>
    obtain ⟨k, v⟩ := g
    rw [show fieldsFuel ((k, v) :: fs) = max (fuelFor v) (fieldsFuel fs) + 1 from rfl]
    have h1 := fuelBound1 v ind
    cases fs with
    | nil =>
      rw [show printFields ind [(k, v)]
          = '"' :: escapeStr k ++ '"' :: ':' :: ' ' :: printVal ind v from rfl,
        show fieldsFuel ([] : List (List Char × JValue)) = 1 from rfl]
      simp only [List.length_cons, List.length_append]
      omega
    | cons g2 fs2 =>
      have h2 := fuelBound3 (g2 :: fs2) ind
      rw [show printFields ind ((k, v) :: g2 :: fs2)
          = '"' :: escapeStr k ++ '"' :: ':' :: ' ' :: printVal ind v
            ++ ',' :: '\n' :: spacesN ind ++ printFields ind (g2 :: fs2) from rfl]
      simp only [List.length_cons, List.length_append]
      omega

end

theorem fuelFor_pos (v : JValue) : 1 ≤ fuelFor v := by
  cases v with
  | null => exact Nat.le_refl 1
  | bool b => exact Nat.le_refl 1
  | num i => exact Nat.le_refl 1
  | str s => exact Nat.le_refl 1
  | arr xs =>
    cases xs with
    | nil => exact Nat.le_refl 1
    | cons x xs => exact Nat.succ_le_succ (Nat.zero_le _)
  | obj fs =>
    cases fs with
    | nil => exact Nat.le_refl 1
    | cons g fs => exact Nat.succ_le_succ (Nat.zero_le _)

theorem head_nondigit (c0 : Char) (h : isDigitC c0 = false) (X : List Char) :
    ∀ c cs, c0 :: X = c :: cs → isDigitC c = false := by
  intro c cs h2
  injection h2 with e1 e2
  rw [← e1]
  exact h

theorem printItems_head (ind : Nat) (x : JValue) (xs : List JValue) :
    ∃ c t, printItems ind (x :: xs) = c :: t ∧ isWsC c = false ∧ ¬c = ']' ∧ ¬c = rcurl := by
  obtain ⟨c, t, hct, h1, h2, h3⟩ := printVal_head ind x
  cases xs with
  | nil =>
    exact ⟨c, t, by rw [show printItems ind [x] = printVal ind x from rfl, hct], h1, h2, h3⟩
  | cons y ys =>
    exact ⟨c, (t ++ (',' :: '\n' :: spacesN ind)) ++ printItems ind (y :: ys), by
      rw [show printItems ind (x :: y :: ys)
          = printVal ind x ++ ',' :: '\n' :: spacesN ind ++ printItems ind (y :: ys)
        from rfl, hct, List.cons_append, List.cons_append], h1, h2, h3⟩

theorem printFields_head (ind : Nat) (g : List Char × JValue)
    (fs : List (List Char × JValue)) :
    ∃ t, printFields ind (g :: fs) = '"' :: t := by
  obtain ⟨k, v⟩ := g
  cases fs with
  | nil => exact ⟨_, rfl⟩
  | cons g2 fs2 => exact ⟨_, rfl⟩

theorem skipWs_space (t : List Char) : skipWs (' ' :: t) = skipWs t := rfl

theorem parseItems_unfold (f : Nat) (s : List Char) :
    parseItems (f + 1) s =
      (match parseVal f s with
       | none => none
       | some (v, r) =>
         match skipWs r with
         | [] => none
         | c2 :: r2 =>
           if c2 = ',' then
             match parseItems f r2 with
             | none => none
             | some (vs, r3) => some (v :: vs, r3)
           else if c2 = ']' then some ([v], r2)
           else none) := by
  rw [parseItems.eq_def]

theorem parseFields_unfold (f : Nat) (s : List Char) :
    parseFields (f + 1) s =
      (match skipWs s with
       | [] => none
       | kc :: kcs =>
         if kc = '"' then
           match parseStrBody kcs with
           | some (k, r) =>
             match skipWs r with
             | [] => none
             | c3 :: r2 =>
               if c3 = ':' then
                 match parseVal f r2 with
                 | some (v, r3) =>
                   match skipWs r3 with
                   | c4 :: r4 =>
                     if c4 = ',' then
                       match parseFields f r4 with
                       | some (fs, r5) => some ((k, v) :: fs, r5)
                       | none => none
                     else if c4 = rcurl then some ([(k, v)], r4)
                     else none
                   | [] => none
                 | none => none
               else none
           | none => none
         else none) := by
  rw [parseFields.eq_def]

mutual

theorem printVal_rt (v : JValue) : ∀ (f ind : Nat) (rest : List Char),
    fuelFor v ≤ f → (∀ c cs, rest = c :: cs → isDigitC c = false) →
    parseVal f (printVal ind v ++ rest) = some (v, rest) := by
  intro f ind rest hf hrest
  cases f with
  | zero =>
    have := fuelFor_pos v
    omega
  | succ f' =>
    cases v with
    | null => exact parseVal_null f' rest
    | bool b =>
      cases b with
      | false => exact parseVal_false f' rest
      | true => exact parseVal_true f' rest
    | num i =>
      cases i with
      | ofNat n =>
        by_cases hn : n = 0
        · subst hn
          exact rfl
        · obtain ⟨d, t, hdt, hd0⟩ := natChars_pos_head n (by omega)
          have hd : isDigitC d = true := natChars_digits n d (by rw [hdt]; simp)
          show parseVal (f' + 1) (natChars n ++ rest) = some (.num (.ofNat n), rest)
          rw [hdt, List.cons_append, parseVal_digit f' d (t ++ rest) hd hd0,
            ← List.cons_append, ← hdt, parseDigits_natChars n rest hrest]
          rfl
      | negSucc m =>
        obtain ⟨d, t, hdt, hd0⟩ := natChars_pos_head (m + 1) (by omega)
        have hd : isDigitC d = true := natChars_digits (m + 1) d (by rw [hdt]; simp)
        show parseVal (f' + 1) ('-' :: (natChars (m + 1) ++ rest))
          = some (.num (.negSucc m), rest)
        rw [show '-' :: (natChars (m + 1) ++ rest) = '-' :: natChars (m + 1) ++ rest
          from rfl, hdt, List.cons_append, List.cons_append,
          parseVal_neg f' d (t ++ rest) hd, if_neg hd0,
          ← List.cons_append, ← hdt, parseDigits_natChars (m + 1) rest hrest]
        rfl
    | str s =>
      have hform : printVal ind (.str s) ++ rest = '"' :: (escapeStr s ++ '"' :: rest) := by
        simp [printVal, List.append_assoc]
      rw [hform, parseVal_str f', parseStrBody_escape s rest]
    | arr xs =>
      cases xs with
      | nil => exact rfl
      | cons x xs =>
        have hf2 : itemsFuel (x :: xs) ≤ f' := by
          have h := hf
          rw [show fuelFor (.arr (x :: xs)) = itemsFuel (x :: xs) + 1 from rfl] at h
          omega
        have hform : printVal ind (.arr (x :: xs)) ++ rest
            = '[' :: '\n' :: (spacesN (ind + 2) ++ (printItems (ind + 2) (x :: xs)
                ++ ('\n' :: (spacesN ind ++ (']' :: rest))))) := by
          simp [printVal, List.append_assoc]
        obtain ⟨hc, ht, hph, hpw, hp1, hp2⟩ := printItems_head (ind + 2) x xs
        rw [hform, parseVal_arr f', skipWs_nl_spaces (ind + 2) _, hph, List.cons_append,
          skipWs_cons_nonws hc _ hpw]
        show (if hc = ']' then
                some (JValue.arr [], ht ++ ('\n' :: (spacesN ind ++ (']' :: rest))))
              else
                match parseItems f'
                    (hc :: (ht ++ ('\n' :: (spacesN ind ++ (']' :: rest))))) with
                | some (vs, r) => some (JValue.arr vs, r)
                | none => none) = some (JValue.arr (x :: xs), rest)
        rw [if_neg hp1, ← List.cons_append, ← hph,
          printItems_rt (x :: xs) f' (ind + 2) ind rest (by simp) hf2]
    | obj fs =>
      cases fs with
      | nil => exact rfl
      | cons g fs =>
        have hf2 : fieldsFuel (g :: fs) ≤ f' := by
          have h := hf
          rw [show fuelFor (.obj (g :: fs)) = fieldsFuel (g :: fs) + 1 from rfl] at h
          omega
        have hform : printVal ind (.obj (g :: fs)) ++ rest
            = lcurl :: '\n' :: (spacesN (ind + 2) ++ (printFields (ind + 2) (g :: fs)
                ++ ('\n' :: (spacesN ind ++ (rcurl :: rest))))) := by
          simp [printVal, List.append_assoc]
        obtain ⟨pt, hpf⟩ := printFields_head (ind + 2) g fs
        rw [hform, parseVal_obj f', skipWs_nl_spaces (ind + 2) _, hpf, List.cons_append,
          skipWs_cons_nonws '"' _ (by decide)]
        show (if ('"' : Char) = rcurl then
                some (JValue.obj [], pt ++ ('\n' :: (spacesN ind ++ (rcurl :: rest))))
              else
                match parseFields f'
                    ('"' :: (pt ++ ('\n' :: (spacesN ind ++ (rcurl :: rest))))) with
                | some (gs, r) => some (JValue.obj gs, r)
                | none => none) = some (JValue.obj (g :: fs), rest)
        rw [if_neg (by decide : ¬('"' : Char) = rcurl), ← List.cons_append, ← hpf,
          printFields_rt (g :: fs) f' (ind + 2) ind rest (by simp) hf2]

theorem printItems_rt (xs : List JValue) : ∀ (f ind ind2 : Nat) (rest : List Char),
    xs ≠ [] → itemsFuel xs ≤ f →
    parseItems f (printItems ind xs ++ ('\n' :: (spacesN ind2 ++ (']' :: rest))))
      = some (xs, rest) := by
  intro f ind ind2 rest hne hif
  cases xs with
  | nil => exact absurd rfl hne
  | cons x xs =>
    cases f with
    | zero =>
      have h := hif
      rw [show itemsFuel (x :: xs) = max (fuelFor x) (itemsFuel xs) + 1 from rfl] at h
      omega
    | succ f' =>
      have hif2 : max (fuelFor x) (itemsFuel xs) ≤ f' := by
        have h := hif
        rw [show itemsFuel (x :: xs) = max (fuelFor x) (itemsFuel xs) + 1 from rfl] at h
        omega
      have hfx : fuelFor x ≤ f' := le_trans (le_max_left _ _) hif2
      cases xs with
      | nil =>
        show parseItems (f' + 1)
            (printVal ind x ++ ('\n' :: (spacesN ind2 ++ (']' :: rest)))) = some ([x], rest)
        rw [parseItems_unfold,
          printVal_rt x f' ind _ hfx (head_nondigit '\n' (by decide) _)]
        show (match skipWs ('\n' :: (spacesN ind2 ++ (']' :: rest))) with
              | [] => none
              | c2 :: r2 =>
                if c2 = ',' then
                  match parseItems f' r2 with
                  | none => none
                  | some (vs, r3) => some (x :: vs, r3)
                else if c2 = ']' then some ([x], r2)
                else none) = some ([x], rest)
        rw [skipWs_nl_spaces ind2 _, skipWs_cons_nonws ']' rest (by decide)]
        rfl
      | cons y ys =>
        have hfy : itemsFuel (y :: ys) ≤ f' := le_trans (le_max_right _ _) hif2
        have hform : printItems ind (x :: y :: ys)
              ++ ('\n' :: (spacesN ind2 ++ (']' :: rest)))
            = printVal ind x ++ (',' :: '\n' :: (spacesN ind ++ (printItems ind (y :: ys)
                ++ ('\n' :: (spacesN ind2 ++ (']' :: rest)))))) := by
          rw [show printItems ind (x :: y :: ys)
              = printVal ind x ++ ',' :: '\n' :: spacesN ind ++ printItems ind (y :: ys)
            from rfl]
          simp [List.append_assoc]
        rw [hform, parseItems_unfold,
          printVal_rt x f' ind _ hfx (head_nondigit ',' (by decide) _)]
        show (match skipWs (',' :: '\n' :: (spacesN ind ++ (printItems ind (y :: ys)
                ++ ('\n' :: (spacesN ind2 ++ (']' :: rest)))))) with
              | [] => none
              | c2 :: r2 =>
                if c2 = ',' then
                  match parseItems f' r2 with
                  | none => none
                  | some (vs, r3) => some (x :: vs, r3)
                else if c2 = ']' then some ([x], r2)
                else none) = some (x :: y :: ys, rest)
        rw [skipWs_cons_nonws ',' _ (by decide)]
        show (match parseItems f' ('\n' :: (spacesN ind ++ (printItems ind (y :: ys)
                ++ ('\n' :: (spacesN ind2 ++ (']' :: rest)))))) with
              | none => none
              | some (vs, r3) => some (x :: vs, r3)) = some (x :: y :: ys, rest)
        rw [parseItems_congr f' _ _ (skipWs_nl_spaces ind _),
          printItems_rt (y :: ys) f' ind ind2 rest (by simp) hfy]

theorem printFields_rt (fs : List (List Char × JValue)) :
    ∀ (f ind ind2 : Nat) (rest : List Char),
    fs ≠ [] → fieldsFuel fs ≤ f →
    parseFields f (printFields ind fs ++ ('\n' :: (spacesN ind2 ++ (rcurl :: rest))))
      = some (fs, rest) := by
  intro f ind ind2 rest hne hif
  cases fs with
  | nil => exact absurd rfl hne
  | cons g fs =>
    obtain ⟨k, v⟩ := g
    cases f with
    | zero =>
      have h := hif
      rw [show fieldsFuel ((k, v) :: fs) = max (fuelFor v) (fieldsFuel fs) + 1 from rfl] at h
      omega
    | succ f' =>
      have hif2 : max (fuelFor v) (fieldsFuel fs) ≤ f' := by
        have h := hif
        rw [show fieldsFuel ((k, v) :: fs) = max (fuelFor v) (fieldsFuel fs) + 1 from rfl] at h
        omega
      have hfv : fuelFor v ≤ f' := le_trans (le_max_left _ _) hif2
      cases fs with
      | nil =>
        have hform : printFields ind [(k, v)]
              ++ ('\n' :: (spacesN ind2 ++ (rcurl :: rest)))
            = '"' :: (escapeStr k ++ '"' :: (':' :: (' ' :: (printVal ind v
                ++ ('\n' :: (spacesN ind2 ++ (rcurl :: rest))))))) := by
          rw [show printFields ind [(k, v)]
              = '"' :: escapeStr k ++ '"' :: ':' :: ' ' :: printVal ind v from rfl]
          simp [List.append_assoc]
        rw [hform, parseFields_unfold, skipWs_cons_nonws '"' _ (by decide)]
        show (if ('"' : Char) = '"' then
                match parseStrBody (escapeStr k ++ '"' :: (':' :: (' ' :: (printVal ind v
                    ++ ('\n' :: (spacesN ind2 ++ (rcurl :: rest))))))) with
                | some (k2, r) =>
                  (match skipWs r with
                   | [] => none
                   | c3 :: r2 =>
                     if c3 = ':' then
                       match parseVal f' r2 with
                       | some (v2, r3) =>
                         (match skipWs r3 with
                          | c4 :: r4 =>
                            if c4 = ',' then
                              match parseFields f' r4 with
                              | some (gs, r5) => some ((k2, v2) :: gs, r5)
                              | none => none
                            else if c4 = rcurl then some ([(k2, v2)], r4)
                            else none
                          | [] => none)
                       | none => none
                     else none)
                | none => none
              else none) = some ([(k, v)], rest)
        rw [if_pos rfl, parseStrBody_escape k _]
        show (match skipWs (':' :: (' ' :: (printVal ind v
                ++ ('\n' :: (spacesN ind2 ++ (rcurl :: rest)))))) with
              | [] => none
              | c3 :: r2 =>
                if c3 = ':' then
                  match parseVal f' r2 with
                  | some (v2, r3) =>
                    (match skipWs r3 with
                     | c4 :: r4 =>
                       if c4 = ',' then
                         match parseFields f' r4 with
                         | some (gs, r5) => some ((k, v2) :: gs, r5)
                         | none => none
                       else if c4 = rcurl then some ([(k, v2)], r4)
                       else none
                     | [] => none)
                  | none => none
                else none) = some ([(k, v)], rest)
        rw [skipWs_cons_nonws ':' _ (by decide)]
        show (match parseVal f' (' ' :: (printVal ind v
                ++ ('\n' :: (spacesN ind2 ++ (rcurl :: rest))))) with
              | some (v2, r3) =>
                (match skipWs r3 with
                 | c4 :: r4 =>
                   if c4 = ',' then
                     match parseFields f' r4 with
                     | some (gs, r5) => some ((k, v2) :: gs, r5)
                     | none => none
                   else if c4 = rcurl then some ([(k, v2)], r4)
                   else none
                 | [] => none)
              | none => none) = some ([(k, v)], rest)
        rw [parseVal_congr f' _ _ (skipWs_space _),
          printVal_rt v f' ind _ hfv (head_nondigit '\n' (by decide) _)]
        show (match skipWs ('\n' :: (spacesN ind2 ++ (rcurl :: rest))) with
              | c4 :: r4 =>
                if c4 = ',' then
                  match parseFields f' r4 with
                  | some (gs, r5) => some ((k, v) :: gs, r5)
                  | none => none
                else if c4 = rcurl then some ([(k, v)], r4)
                else none
              | [] => none) = some ([(k, v)], rest)
        rw [skipWs_nl_spaces ind2 _, skipWs_cons_nonws rcurl rest (by decide)]
        rfl
      | cons g2 fs2 =>
        have hfg : fieldsFuel (g2 :: fs2) ≤ f' := le_trans (le_max_right _ _) hif2
        have hform : printFields ind ((k, v) :: g2 :: fs2)
              ++ ('\n' :: (spacesN ind2 ++ (rcurl :: rest)))
            = '"' :: (escapeStr k ++ '"' :: (':' :: (' ' :: (printVal ind v
                ++ (',' :: '\n' :: (spacesN ind ++ (printFields ind (g2 :: fs2)
                  ++ ('\n' :: (spacesN ind2 ++ (rcurl :: rest)))))))))) := by
          rw [show printFields ind ((k, v) :: g2 :: fs2)
              = '"' :: escapeStr k ++ '"' :: ':' :: ' ' :: printVal ind v
                ++ ',' :: '\n' :: spacesN ind ++ printFields ind (g2 :: fs2) from rfl]
          simp [List.append_assoc]
        rw [hform, parseFields_unfold, skipWs_cons_nonws '"' _ (by decide)]
        show (if ('"' : Char) = '"' then
                match parseStrBody (escapeStr k ++ '"' :: (':' :: (' ' :: (printVal ind v
                    ++ (',' :: '\n' :: (spacesN ind ++ (printFields ind (g2 :: fs2)
                      ++ ('\n' :: (spacesN ind2 ++ (rcurl :: rest)))))))))) with
                | some (k2, r) =>
                  (match skipWs r with
                   | [] => none
                   | c3 :: r2 =>
                     if c3 = ':' then
                       match parseVal f' r2 with
                       | some (v2, r3) =>
                         (match skipWs r3 with
                          | c4 :: r4 =>
                            if c4 = ',' then
                              match parseFields f' r4 with
                              | some (gs, r5) => some ((k2, v2) :: gs, r5)
                              | none => none
                            else if c4 = rcurl then some ([(k2, v2)], r4)
                            else none
                          | [] => none)
                       | none => none
                     else none)
                | none => none
              else none) = some ((k, v) :: g2 :: fs2, rest)
        rw [if_pos rfl, parseStrBody_escape k _]
        show (match skipWs (':' :: (' ' :: (printVal ind v
                ++ (',' :: '\n' :: (spacesN ind ++ (printFields ind (g2 :: fs2)
                  ++ ('\n' :: (spacesN ind2 ++ (rcurl :: rest))))))))) with
              | [] => none
              | c3 :: r2 =>
                if c3 = ':' then
                  match parseVal f' r2 with
                  | some (v2, r3) =>
                    (match skipWs r3 with
                     | c4 :: r4 =>
                       if c4 = ',' then
                         match parseFields f' r4 with
                         | some (gs, r5) => some ((k, v2) :: gs, r5)
                         | none => none
                       else if c4 = rcurl then some ([(k, v2)], r4)
                       else none
                     | [] => none)
                  | none => none
                else none) = some ((k, v) :: g2 :: fs2, rest)
        rw [skipWs_cons_nonws ':' _ (by decide)]
        show (match parseVal f' (' ' :: (printVal ind v
                ++ (',' :: '\n' :: (spacesN ind ++ (printFields ind (g2 :: fs2)
                  ++ ('\n' :: (spacesN ind2 ++ (rcurl :: rest)))))))) with
              | some (v2, r3) =>
                (match skipWs r3 with
                 | c4 :: r4 =>
                   if c4 = ',' then
                     match parseFields f' r4 with
                     | some (gs, r5) => some ((k, v2) :: gs, r5)
                     | none => none
                   else if c4 = rcurl then some ([(k, v2)], r4)
                   else none
                 | [] => none)
              | none => none) = some ((k, v) :: g2 :: fs2, rest)
        rw [parseVal_congr f' _ _ (skipWs_space _),
          printVal_rt v f' ind _ hfv (head_nondigit ',' (by decide) _)]
        show (match skipWs (',' :: '\n' :: (spacesN ind ++ (printFields ind (g2 :: fs2)
                ++ ('\n' :: (spacesN ind2 ++ (rcurl :: rest)))))) with
              | c4 :: r4 =>
                if c4 = ',' then
                  match parseFields f' r4 with
                  | some (gs, r5) => some ((k, v) :: gs, r5)
                  | none => none
                else if c4 = rcurl then some ([(k, v)], r4)
                else none
              | [] => none) = some ((k, v) :: g2 :: fs2, rest)
        rw [skipWs_cons_nonws ',' _ (by decide)]
        show (match parseFields f' ('\n' :: (spacesN ind ++ (printFields ind (g2 :: fs2)
                ++ ('\n' :: (spacesN ind2 ++ (rcurl :: rest)))))) with
              | some (gs, r5) => some ((k, v) :: gs, r5)
              | none => none) = some ((k, v) :: g2 :: fs2, rest)
        rw [parseFields_congr f' _ _ (skipWs_nl_spaces ind _),
          printFields_rt (g2 :: fs2) f' ind ind2 rest (by simp) hfg]

end

/-- Claim C7: for every Document composed only of nulls, booleans, numbers,
strings, arrays, and objects, serializing it to raw text (as done when
entering raw mode, `JSON.stringify(value, null, 2)`) and parsing that text
back (as done on raw-mode commit, `JSON.parse`) yields a value deep-equal
to the original Document. -/
theorem stringify_roundtrip (v : JValue) : jparse (stringify v) = some v := by
  have hfuel : fuelFor v ≤ (stringify v).length + 1 :=
    le_trans (fuelBound1 v 0) (Nat.le_succ _)
  have hrt := printVal_rt v ((stringify v).length + 1) 0 []
    hfuel (fun c cs h => absurd h (by simp))
  rw [List.append_nil] at hrt
  show (match parseVal ((trimC (stringify v)).length + 1) (trimC (stringify v)) with
        | some (w, r) => if skipWs r = [] then some w else none
        | none => none) = some v
  rw [trimC_stringify,
    show parseVal ((stringify v).length + 1) (stringify v) = some (v, []) from hrt]
  rfl
